import Mathlib

/-!
# eddyserver `Buffer`: a shallow embedding of `eddyserver/buffer.cpp`

The buffer is a linear byte store with a read cursor and a write cursor.  It
starts in an inline array of `kDynamicThreshold` bytes and is promoted, once,
to a heap vector.

Conventions of the embedding

* a byte (`uint8_t`) is a `Fin 256`; a `std::string`, a `(pointer, size)` span
  and a `std::vector<uint8_t>` are lists of bytes;
* `size_t` values are natural numbers.  Every theorem below is stated for
  states that satisfy the cursor invariant, where no `size_t` difference wraps
  around, and sizes of objects held in memory do not overflow `size_t` when
  added; a size passed as a bare argument can make the sum `writer_pos_ + size`
  of `make_space` wrap, and `make_space_size_t`, `ensure_writable_bytes_size_t`
  model these two members with every `size_t` operation taken modulo `2 ^ 64`;
* a failed `assert`, a null dereference of `dynamic_data_` and an access
  outside the storage make an operation return `none`;
* `kDynamicThreshold` is declared in `buffer.h`; it is the parameter `T`;
* the array `static_data_` is not initialised by the constructors: its initial
  content is an argument.
-/

namespace eddyserver

/-- One `uint8_t`. -/
abbrev Byte := Fin 256

/-- The data members of `Buffer`: `is_dynmic_`, the two cursors, the inline
array `static_data_[kDynamicThreshold]` and the owning pointer
`std::unique_ptr<DynamicVector> dynamic_data_` (`none` is the null pointer). -/
structure Buffer where
  is_dynmic_ : Bool
  reader_pos_ : Nat
  writer_pos_ : Nat
  static_data_ : List Byte
  dynamic_data_ : Option (List Byte)
deriving DecidableEq

/-! ## Memory primitives -/

/-- Reading `n` bytes at offset `i` of a storage (`memcpy`/`memmove` source, or
an iterator range); outside the storage the read is undefined. -/
def read_range (xs : List Byte) (i n : Nat) : Option (List Byte) :=
  if i + n ≤ xs.length then some ((xs.drop i).take n) else none

/-- Overwriting the bytes at offset `i` of a storage with `d` (`memcpy`/`memmove`
destination); outside the storage the write is undefined. -/
def write_range (xs : List Byte) (i : Nat) (d : List Byte) : Option (List Byte) :=
  if i + d.length ≤ xs.length then some (xs.take i ++ d ++ xs.drop (i + d.length)) else none

/-- The call `std::vector::insert(begin() + pos, first, last)`: the new bytes go
in before position `pos`, the tail moves up. -/
def vector_insert (v : List Byte) (pos : Nat) (d : List Byte) : Option (List Byte) :=
  if pos ≤ v.length then some (v.take pos ++ d ++ v.drop pos) else none

/-- The call `std::vector::resize(n)`: truncate, or pad with zero bytes. -/
def vector_resize (v : List Byte) (n : Nat) : List Byte :=
  v.take n ++ List.replicate (n - v.length) 0

/-- The loop `while (*eos++);` started at the head of `xs`: the offset of the
first zero byte.  Running off the storage is undefined. -/
def scan_zero : List Byte → Option Nat
  | [] => none
  | c :: rest => if c = 0 then some 0 else (scan_zero rest).map (· + 1)

/-! ## Inline members declared in `buffer.h` -/

/-- Modelled from the spec: `is_dynmic()` of `buffer.h`, the mode flag. -/
def Buffer.is_dynmic (b : Buffer) : Bool := b.is_dynmic_

/-- Modelled from the spec: `readable()` of `buffer.h`,
`readable = writer_pos - reader_pos`. -/
def Buffer.readable (b : Buffer) : Nat := b.writer_pos_ - b.reader_pos_

/-- Modelled from the spec: `prependable()` of `buffer.h`,
`prependable = reader_pos`. -/
def Buffer.prependable (b : Buffer) : Nat := b.reader_pos_

/-- Modelled from the spec: the capacity of the active storage, the threshold
`T` in Inline mode and the current length of the byte vector in Dynamic mode. -/
def Buffer.capacity (T : Nat) (b : Buffer) : Nat :=
  if b.is_dynmic_ then (b.dynamic_data_.getD []).length else T

/-- Modelled from the spec: `writeable()` of `buffer.h`,
`writable = capacity - writer_pos`. -/
def Buffer.writeable (T : Nat) (b : Buffer) : Nat := b.capacity T - b.writer_pos_

/-- Modelled from the spec: the active storage, which `data()` of `buffer.h`
points into at offset `reader_pos_`; `none` when the buffer is Dynamic and
`dynamic_data_` is null. -/
def Buffer.storage (b : Buffer) : Option (List Byte) :=
  if b.is_dynmic_ then b.dynamic_data_ else some b.static_data_

/-- Modelled from the spec: the unread content, the bytes of the region
`[reader_pos, writer_pos)` of the active storage, which `data()` and
`readable()` of `buffer.h` expose. -/
def Buffer.readable_bytes (b : Buffer) : List Byte :=
  (((b.storage).getD []).drop b.reader_pos_).take (b.writer_pos_ - b.reader_pos_)

/-! ## Constructors -/

/-- The constructor `Buffer::Buffer()`; `uninit` is the content the inline array
happens to have. -/
def Buffer.new (uninit : List Byte) : Buffer :=
  { is_dynmic_ := false, reader_pos_ := 0, writer_pos_ := 0,
    static_data_ := uninit, dynamic_data_ := none }

/-! ## Operations of `buffer.cpp` -/

/-- The member `Buffer::clear`. -/
def Buffer.clear (b : Buffer) : Option Buffer :=
  let b1 := { b with reader_pos_ := 0, writer_pos_ := 0 }
  if b1.is_dynmic then
    match b1.dynamic_data_ with
    | none => none
    | some _ => some { b1 with dynamic_data_ := some [] }
  else some b1

/-- The member `Buffer::set_dynamic`.  The vector is created with `content_size`
zero bytes and the readable bytes are then inserted at its front. -/
def Buffer.set_dynamic (b : Buffer) : Option Buffer :=
  if b.is_dynmic then none
  else
    let content_size := b.readable
    let fresh : List Byte := List.replicate content_size 0
    match read_range b.static_data_ b.reader_pos_ (b.writer_pos_ - b.reader_pos_) with
    | none => none
    | some content =>
      match vector_insert fresh 0 content with
      | none => none
      | some v =>
        let b1 : Buffer :=
          { b with is_dynmic_ := true, dynamic_data_ := some v,
                   reader_pos_ := 0, writer_pos_ := content_size }
        if content_size = b1.readable then some b1 else none

/-- The call `dynamic_data_->reserve(size)`: it changes the allocation only,
neither `size()` nor the elements; a null `dynamic_data_` is undefined. -/
def Buffer.vector_reserve (b : Buffer) (_size : Nat) : Option Buffer :=
  match b.dynamic_data_ with
  | none => none
  | some _ => some b

/-- The member `Buffer::reserve`. -/
def Buffer.reserve (T : Nat) (b : Buffer) (size : Nat) : Option Buffer :=
  if !b.is_dynmic then
    if size ≤ T then some b
    else
      match b.set_dynamic with
      | none => none
      | some b1 => b1.vector_reserve size
  else b.vector_reserve size

/-- The member `Buffer::retrieve_all`. -/
def Buffer.retrieve_all (b : Buffer) : Buffer :=
  { b with reader_pos_ := 0, writer_pos_ := 0 }

/-- The member `Buffer::retrieve`. -/
def Buffer.retrieve (b : Buffer) (size : Nat) : Option Buffer :=
  if b.readable ≥ size then
    if b.readable > size then some { b with reader_pos_ := b.reader_pos_ + size }
    else some b.retrieve_all
  else none

/-- The member `Buffer::has_written`. -/
def Buffer.has_written (T : Nat) (b : Buffer) (size : Nat) : Option Buffer :=
  if b.writeable T ≥ size then some { b with writer_pos_ := b.writer_pos_ + size }
  else none

/-- The in-place move `memmove(base, base + reader_pos_, writer_pos_ - reader_pos_)`
on a storage. -/
def compact (xs : List Byte) (reader writer : Nat) : Option (List Byte) :=
  match read_range xs reader (writer - reader) with
  | none => none
  | some moved => write_range xs 0 moved

/-- The member `Buffer::make_space` with the sum `writer_pos_ + size` exact, as
it is when `size` is the length of a span held in memory, which is how `write`
reaches it.  For an arbitrary `size_t` argument the sum can wrap: that is
`Buffer.make_space_size_t`. -/
def Buffer.make_space (T : Nat) (b : Buffer) (size : Nat) : Option Buffer :=
  if b.writeable T + b.prependable < size then
    match (if !b.is_dynmic then b.set_dynamic else some b) with
    | none => none
    | some b1 =>
      match b1.dynamic_data_ with
      | none => none
      | some v => some { b1 with dynamic_data_ := some (vector_resize v (b1.writer_pos_ + size)) }
  else
    let moved : Option Buffer :=
      if !b.is_dynmic then
        match compact b.static_data_ b.reader_pos_ b.writer_pos_ with
        | none => none
        | some s => some { b with static_data_ := s }
      else
        match b.dynamic_data_ with
        | none => none
        | some v =>
          match compact v b.reader_pos_ b.writer_pos_ with
          | none => none
          | some w => some { b with dynamic_data_ := some w }
    match moved with
    | none => none
    | some b1 =>
      let readable_size := b1.readable
      let b2 : Buffer := { b1 with reader_pos_ := 0, writer_pos_ := readable_size }
      if readable_size = b2.readable then some b2 else none

/-- The member `Buffer::ensure_writable_bytes`. -/
def Buffer.ensure_writable_bytes (T : Nat) (b : Buffer) (size : Nat) : Option Buffer :=
  match (if b.writeable T < size then b.make_space T size else some b) with
  | none => none
  | some b1 => if b1.writeable T ≥ size then some b1 else none

/-- The member `Buffer::write`; the span `(data, size)` is the list `data`, and the
result carries the returned count. -/
def Buffer.write (T : Nat) (b : Buffer) (data : List Byte) : Option (Buffer × Nat) :=
  let size := data.length
  match b.ensure_writable_bytes T size with
  | none => none
  | some b1 =>
    let copied : Option Buffer :=
      if !b1.is_dynmic then
        match write_range b1.static_data_ b1.writer_pos_ data with
        | none => none
        | some s => some { b1 with static_data_ := s }
      else
        match b1.dynamic_data_ with
        | none => none
        | some v =>
          match vector_insert v b1.writer_pos_ data with
          | none => none
          | some w => some { b1 with dynamic_data_ := some w }
    match copied with
    | none => none
    | some b2 =>
      match b2.has_written T size with
      | none => none
      | some b3 => some (b3, size)

/-- The member `Buffer::write_string`. -/
def Buffer.write_string (T : Nat) (b : Buffer) (value : List Byte) : Option Buffer :=
  if !value.isEmpty then
    match b.write T value with
    | none => none
    | some (b1, _) => some b1
  else some b

/-- Modelled from the spec: the object representation of a `uint32_t` that
`write_pod<uint32_t>` of `buffer.h` copies, four bytes in the byte order of the
host (`big_endian` selects it). -/
def u32_bytes (big_endian : Bool) (v : Nat) : List Byte :=
  let le : List Byte :=
    [⟨v % 256, Nat.mod_lt _ (by decide)⟩, ⟨v / 256 % 256, Nat.mod_lt _ (by decide)⟩,
     ⟨v / 65536 % 256, Nat.mod_lt _ (by decide)⟩, ⟨v / 16777216 % 256, Nat.mod_lt _ (by decide)⟩]
  if big_endian then le.reverse else le

/-- The value that `memcpy(&lenght, data(), sizeof(uint32_t))` leaves in a
`uint32_t`, for the byte order of the host. -/
def u32_value (big_endian : Bool) (raw : List Byte) : Nat :=
  match (if big_endian then raw.reverse else raw) with
  | [b0, b1, b2, b3] => b0.val + 256 * b1.val + 65536 * b2.val + 16777216 * b3.val
  | _ => 0

/-- Modelled from the spec: `write_pod<uint32_t>(value)` of `buffer.h`, a raw
write of the four bytes of the value; the argument is converted to `uint32_t`. -/
def Buffer.write_pod_u32 (T : Nat) (big_endian : Bool) (b : Buffer) (value : Nat) :
    Option (Buffer × Nat) :=
  b.write T (u32_bytes big_endian (value % 2 ^ 32))

/-- The member `Buffer::write_lenght_and_string`. -/
def Buffer.write_lenght_and_string (T : Nat) (big_endian : Bool) (b : Buffer)
    (value : List Byte) : Option Buffer :=
  match b.write_pod_u32 T big_endian value.length with
  | none => none
  | some (b1, _) => b1.write_string T value

/-- The member `std::string Buffer::read_string()`: the new state and the
returned string. -/
def Buffer.read_string (b : Buffer) : Option (Buffer × List Byte) :=
  if b.readable > 0 then
    match b.storage with
    | none => none
    | some stor =>
      match scan_zero (stor.drop b.reader_pos_) with
      | none => none
      | some lenght =>
        if b.readable ≥ lenght then
          if lenght > 0 then
            match read_range stor b.reader_pos_ lenght with
            | none => none
            | some value =>
              match b.retrieve lenght with
              | none => none
              | some b1 => some (b1, value)
          else some (b, [])
        else none
  else none

/-- The member `void Buffer::read_string(std::string *out_value)`: the new state
and the new content of `*out_value`. -/
def Buffer.read_string_out (b : Buffer) (_out_value : List Byte) : Option (Buffer × List Byte) :=
  if b.readable > 0 then
    match b.storage with
    | none => none
    | some stor =>
      match scan_zero (stor.drop b.reader_pos_) with
      | none => none
      | some lenght =>
        if b.readable ≥ lenght then
          let cleared : List Byte := []
          if lenght > 0 then
            match read_range stor b.reader_pos_ lenght with
            | none => none
            | some value =>
              match b.retrieve lenght with
              | none => none
              | some b1 => some (b1, value)
          else some (b, cleared)
        else none
  else none

/-- The member `std::string Buffer::read_lenght_and_string()`: the new state and
the returned string. -/
def Buffer.read_lenght_and_string (big_endian : Bool) (b : Buffer) :
    Option (Buffer × List Byte) :=
  if b.readable ≥ 4 then
    match b.storage with
    | none => none
    | some stor =>
      match read_range stor b.reader_pos_ 4 with
      | none => none
      | some raw =>
        let lenght := u32_value big_endian raw
        match b.retrieve 4 with
        | none => none
        | some b1 =>
          if lenght > 0 then
            match b1.storage with
            | none => none
            | some stor1 =>
              match read_range stor1 b1.reader_pos_ lenght with
              | none => none
              | some value =>
                match b1.retrieve lenght with
                | none => none
                | some b2 => some (b2, value)
          else some (b1, [])
  else none

/-- The member `void Buffer::read_lenght_and_string(std::string *out_value)`: the
new state and the new content of `*out_value`. -/
def Buffer.read_lenght_and_string_out (big_endian : Bool) (b : Buffer)
    (_out_value : List Byte) : Option (Buffer × List Byte) :=
  if b.readable ≥ 4 then
    match b.storage with
    | none => none
    | some stor =>
      match read_range stor b.reader_pos_ 4 with
      | none => none
      | some raw =>
        let lenght := u32_value big_endian raw
        match b.retrieve 4 with
        | none => none
        | some b1 =>
          let cleared : List Byte := []
          if lenght > 0 then
            match b1.storage with
            | none => none
            | some stor1 =>
              match read_range stor1 b1.reader_pos_ lenght with
              | none => none
              | some value =>
                match b1.retrieve lenght with
                | none => none
                | some b2 => some (b2, value)
          else some (b1, cleared)
  else none

/-! ## Copy, move, assignment and swap

Two `Buffer` objects live at the addresses `false` and `true`; an operation
names its operands by address, so that `std::addressof(rhs) != this` can be
evaluated. -/

/-- The whole-array copy `memcpy(static_data_, other.static_data_, kDynamicThreshold)`. -/
def memcpy_static (T : Nat) (dst src : List Byte) : Option (List Byte) :=
  match read_range src 0 T with
  | none => none
  | some bytes => write_range dst 0 bytes

/-- The copy constructor `Buffer::Buffer(const Buffer &other)`; `uninit` is the
content the inline array of the new object happens to have. -/
def Buffer.copy_ctor (T : Nat) (uninit : List Byte) (other : Buffer) : Option Buffer :=
  let b : Buffer :=
    { is_dynmic_ := other.is_dynmic, reader_pos_ := other.reader_pos_,
      writer_pos_ := other.writer_pos_, static_data_ := uninit, dynamic_data_ := none }
  if !other.is_dynmic then
    match memcpy_static T b.static_data_ other.static_data_ with
    | none => none
    | some s => some { b with static_data_ := s }
  else
    match other.dynamic_data_ with
    | none => none
    | some v => some { b with dynamic_data_ := some v }

/-- The move constructor `Buffer::Buffer(Buffer &&other)`: the new object and the
state `other` is left in. -/
def Buffer.move_ctor (T : Nat) (uninit : List Byte) (other : Buffer) : Option (Buffer × Buffer) :=
  let b : Buffer :=
    { is_dynmic_ := other.is_dynmic_, reader_pos_ := other.reader_pos_,
      writer_pos_ := other.writer_pos_, static_data_ := uninit, dynamic_data_ := none }
  let moved : Option (Buffer × Buffer) :=
    if !other.is_dynmic then
      match memcpy_static T b.static_data_ other.static_data_ with
      | none => none
      | some s => some ({ b with static_data_ := s }, other)
    else
      some ({ b with dynamic_data_ := other.dynamic_data_ }, { other with dynamic_data_ := none })
  match moved with
  | none => none
  | some (b1, other1) =>
    some (b1, { other1 with reader_pos_ := 0, writer_pos_ := 0, is_dynmic_ := false })

/-- Two `Buffer` objects, at the addresses `false` and `true`. -/
abbrev Sys := Buffer × Buffer

/-- The object at an address. -/
def Sys.get (s : Sys) (a : Bool) : Buffer := if a then s.2 else s.1

/-- Storing an object at an address. -/
def Sys.set (s : Sys) (a : Bool) (b : Buffer) : Sys := if a then (s.1, b) else (b, s.2)

/-- Running a member function on the object at address `a`. -/
def Sys.on (s : Sys) (a : Bool) (f : Buffer → Option Buffer) : Option Sys :=
  match f (s.get a) with
  | none => none
  | some b => some (s.set a b)

/-- The move assignment `Buffer::operator=(Buffer &&rhs)` of the object at
`this`. -/
def Buffer.move_assign (T : Nat) (s : Sys) (this rhs : Bool) : Option Sys :=
  if rhs ≠ this then
    let r := s.get rhs
    let d : Buffer :=
      { s.get this with is_dynmic_ := r.is_dynmic, reader_pos_ := r.reader_pos_,
                        writer_pos_ := r.writer_pos_ }
    let moved : Option (Buffer × Buffer) :=
      if !r.is_dynmic then
        match memcpy_static T d.static_data_ r.static_data_ with
        | none => none
        | some st => some ({ d with static_data_ := st }, r)
      else
        some ({ d with dynamic_data_ := r.dynamic_data_ }, { r with dynamic_data_ := none })
    match moved with
    | none => none
    | some (d1, r1) =>
      some ((s.set this d1).set rhs
        { r1 with reader_pos_ := 0, writer_pos_ := 0, is_dynmic_ := false })
  else some s

/-- The copy assignment `Buffer::operator=(const Buffer &rhs)` of the object at
`this`. -/
def Buffer.copy_assign (T : Nat) (s : Sys) (this rhs : Bool) : Option Sys :=
  if rhs ≠ this then
    let r := s.get rhs
    let d : Buffer :=
      { s.get this with is_dynmic_ := r.is_dynmic, reader_pos_ := r.reader_pos_,
                        writer_pos_ := r.writer_pos_ }
    if !r.is_dynmic then
      match memcpy_static T d.static_data_ r.static_data_ with
      | none => none
      | some st => some (s.set this { d with static_data_ := st })
    else
      let d1 : Buffer :=
        if d.dynamic_data_ = none then { d with dynamic_data_ := some [] } else d
      match r.dynamic_data_ with
      | none => none
      | some v => some (s.set this { d1 with dynamic_data_ := some v })
  else some s

/-- The member `Buffer::swap` of the object at `this`. -/
def Buffer.swap (s : Sys) (this other : Bool) : Sys :=
  if other ≠ this then
    let a := s.get this
    let o := s.get other
    let (a, o) := ({ a with dynamic_data_ := o.dynamic_data_ }, { o with dynamic_data_ := a.dynamic_data_ })
    let (a, o) := ({ a with is_dynmic_ := o.is_dynmic_ }, { o with is_dynmic_ := a.is_dynmic_ })
    let (a, o) := ({ a with reader_pos_ := o.reader_pos_ }, { o with reader_pos_ := a.reader_pos_ })
    let (a, o) := ({ a with writer_pos_ := o.writer_pos_ }, { o with writer_pos_ := a.writer_pos_ })
    let (a, o) := ({ a with static_data_ := o.static_data_ }, { o with static_data_ := a.static_data_ })
    (s.set this a).set other o
  else s

/-! ## Well-formed states -/

/-- The representation is that of a `Buffer` object: the inline array has
`T` elements, and a Dynamic buffer owns a vector. -/
def Buffer.shape (T : Nat) (b : Buffer) : Prop :=
  b.static_data_.length = T ∧ (b.is_dynmic_ = true → b.dynamic_data_.isSome = true)

/-- The cursor invariant `reader_pos ≤ writer_pos ≤ capacity`. -/
def Buffer.cursor_inv (T : Nat) (b : Buffer) : Prop :=
  b.reader_pos_ ≤ b.writer_pos_ ∧ b.writer_pos_ ≤ b.capacity T

/-- A well-formed state: the representation is sound and the cursor invariant
holds. -/
def Buffer.wf (T : Nat) (b : Buffer) : Prop := b.shape T ∧ b.cursor_inv T

instance (T : Nat) (b : Buffer) : Decidable (b.shape T) := by
  unfold Buffer.shape; infer_instance

instance (T : Nat) (b : Buffer) : Decidable (b.cursor_inv T) := by
  unfold Buffer.cursor_inv; infer_instance

instance (T : Nat) (b : Buffer) : Decidable (b.wf T) := by
  unfold Buffer.wf; infer_instance

/-! ## Sequences of calls -/

/-- One call of the public interface on one of the two objects; `swap` is
called with the other object as its argument. -/
inductive Op where
  | write (d : List Byte)
  | retrieve (n : Nat)
  | reserve (n : Nat)
  | clear
  | swap

/-- The argument of the call is valid: `retrieve(n)` needs `n ≤ readable()`. -/
def Op.valid (s : Sys) (a : Bool) : Op → Bool
  | .retrieve n => decide (n ≤ (s.get a).readable)
  | _ => true

/-- The effect of one call on the object at address `a`. -/
def Op.step (T : Nat) (s : Sys) (a : Bool) : Op → Option Sys
  | .write d =>
    s.on a (fun b => match b.write T d with
      | none => none
      | some (b1, _) => some b1)
  | .retrieve n => s.on a (fun b => b.retrieve n)
  | .reserve n => s.on a (fun b => b.reserve T n)
  | .clear => s.on a Buffer.clear
  | .swap => some (Buffer.swap s a (!a))

/-- The states after each call of a sequence, in order. -/
def run_trace (T : Nat) : Sys → List (Bool × Op) → Option (List Sys)
  | _, [] => some []
  | s, (a, op) :: rest =>
    match op.step T s a with
    | none => none
    | some s1 =>
      match run_trace T s1 rest with
      | none => none
      | some tr => some (s1 :: tr)

/-- Every call of the sequence has a valid argument in the state it is made in. -/
def args_valid (T : Nat) : Sys → List (Bool × Op) → Bool
  | _, [] => true
  | s, (a, op) :: rest =>
    op.valid s a &&
      match op.step T s a with
      | none => true
      | some s1 => args_valid T s1 rest

/-- One call of a member function that mutates a single buffer. -/
inductive MemberOp where
  | write (d : List Byte)
  | retrieve (n : Nat)
  | retrieve_all
  | has_written (n : Nat)
  | reserve (n : Nat)
  | clear
  | ensure_writable_bytes (n : Nat)
  | read_string
  | read_string_out (out_value : List Byte)
  | read_lenght_and_string
  | read_lenght_and_string_out (out_value : List Byte)

/-- The state a member call leaves the buffer in. -/
def MemberOp.apply (T : Nat) (big_endian : Bool) (b : Buffer) : MemberOp → Option Buffer
  | .write d =>
    match b.write T d with
    | none => none
    | some (b1, _) => some b1
  | .retrieve n => b.retrieve n
  | .retrieve_all => some b.retrieve_all
  | .has_written n => b.has_written T n
  | .reserve n => b.reserve T n
  | .clear => b.clear
  | .ensure_writable_bytes n => b.ensure_writable_bytes T n
  | .read_string =>
    match b.read_string with
    | none => none
    | some (b1, _) => some b1
  | .read_string_out out_value =>
    match b.read_string_out out_value with
    | none => none
    | some (b1, _) => some b1
  | .read_lenght_and_string =>
    match b.read_lenght_and_string big_endian with
    | none => none
    | some (b1, _) => some b1
  | .read_lenght_and_string_out out_value =>
    match b.read_lenght_and_string_out big_endian out_value with
    | none => none
    | some (b1, _) => some b1

/-- The preconditions of a member call: `retrieve(n)` needs `n ≤ readable()`,
`has_written(n)` needs `n ≤ writeable()`, `read_string` needs a terminator in
the readable region, `read_lenght_and_string` needs the four length bytes and
the declared number of payload bytes to be readable. -/
def MemberOp.valid (T : Nat) (big_endian : Bool) (b : Buffer) : MemberOp → Bool
  | .retrieve n => decide (n ≤ b.readable)
  | .has_written n => decide (n ≤ b.writeable T)
  | .read_string => decide ((0 : Byte) ∈ b.readable_bytes)
  | .read_string_out _ => decide ((0 : Byte) ∈ b.readable_bytes)
  | .read_lenght_and_string =>
    decide (4 ≤ b.readable ∧ 4 + u32_value big_endian (b.readable_bytes.take 4) ≤ b.readable)
  | .read_lenght_and_string_out _ =>
    decide (4 ≤ b.readable ∧ 4 + u32_value big_endian (b.readable_bytes.take 4) ≤ b.readable)
  | _ => true

/-- The state after a sequence of member calls. -/
def run_members (T : Nat) (big_endian : Bool) : Buffer → List MemberOp → Option Buffer
  | b, [] => some b
  | b, op :: rest =>
    match op.apply T big_endian b with
    | none => none
    | some b1 => run_members T big_endian b1 rest

/-- Every member call of the sequence meets its precondition in the state it is
made in. -/
def members_valid (T : Nat) (big_endian : Bool) : Buffer → List MemberOp → Bool
  | _, [] => true
  | b, op :: rest =>
    op.valid T big_endian b &&
      match op.apply T big_endian b with
      | none => true
      | some b1 => members_valid T big_endian b1 rest

/-- The copy step in the middle of `Buffer::write`, between
`ensure_writable_bytes` and `has_written`: a `memcpy` to the write cursor of the
inline array, or an `insert` at the write cursor of the vector. -/
def Buffer.write_copy (b1 : Buffer) (data : List Byte) : Option Buffer :=
  if !b1.is_dynmic then
    match write_range b1.static_data_ b1.writer_pos_ data with
    | none => none
    | some s => some { b1 with static_data_ := s }
  else
    match b1.dynamic_data_ with
    | none => none
    | some v =>
      match vector_insert v b1.writer_pos_ data with
      | none => none
      | some w => some { b1 with dynamic_data_ := some w }

/-! ## `size_t` arithmetic

The members that take a bare size, with the arithmetic of a host whose `size_t`
has 64 bits. -/

/-- The sum of two `size_t` values: it wraps modulo `2 ^ 64`. -/
def size_t_add (a b : Nat) : Nat := (a + b) % 2 ^ 64

/-- The difference of two `size_t` values: it wraps modulo `2 ^ 64`. -/
def size_t_sub (a b : Nat) : Nat := (a + 2 ^ 64 - b) % 2 ^ 64

/-- Modelled from the spec: `writeable()` of `buffer.h` as the host computes it,
`capacity - writer_pos` in `size_t`. -/
def Buffer.writeable_size_t (T : Nat) (b : Buffer) : Nat :=
  size_t_sub (b.capacity T) b.writer_pos_

/-- The value of the sum `writer_pos_ + size` that the growth branch of
`make_space` passes to `resize`, before any wrapping: `writer_pos_` is read
after `set_dynamic`, which has set it to the readable count of an Inline
buffer. -/
def Buffer.growth_sum (b : Buffer) (size : Nat) : Nat :=
  (if b.is_dynmic_ then b.writer_pos_ else b.readable) + size

/-- The member `Buffer::make_space` for an arbitrary `size_t` argument: the
test `writeable() + prependable() < size` and the sum `writer_pos_ + size`
given to `resize` are computed in `size_t`. -/
def Buffer.make_space_size_t (T : Nat) (b : Buffer) (size : Nat) : Option Buffer :=
  if size_t_add (b.writeable_size_t T) b.prependable < size then
    match (if !b.is_dynmic then b.set_dynamic else some b) with
    | none => none
    | some b1 =>
      match b1.dynamic_data_ with
      | none => none
      | some v =>
        some { b1 with dynamic_data_ := some (vector_resize v (size_t_add b1.writer_pos_ size)) }
  else
    let moved : Option Buffer :=
      if !b.is_dynmic then
        match compact b.static_data_ b.reader_pos_ b.writer_pos_ with
        | none => none
        | some s => some { b with static_data_ := s }
      else
        match b.dynamic_data_ with
        | none => none
        | some v =>
          match compact v b.reader_pos_ b.writer_pos_ with
          | none => none
          | some w => some { b with dynamic_data_ := some w }
    match moved with
    | none => none
    | some b1 =>
      let readable_size := b1.readable
      let b2 : Buffer := { b1 with reader_pos_ := 0, writer_pos_ := readable_size }
      if readable_size = b2.readable then some b2 else none

/-- The member `Buffer::ensure_writable_bytes` for an arbitrary `size_t`
argument; both `writeable()` tests, the closing `assert` included, are computed
in `size_t`. -/
def Buffer.ensure_writable_bytes_size_t (T : Nat) (b : Buffer) (size : Nat) : Option Buffer :=
  match (if b.writeable_size_t T < size then b.make_space_size_t T size else some b) with
  | none => none
  | some b1 => if b1.writeable_size_t T ≥ size then some b1 else none

/-! ## Lemmas on the memory primitives -/

theorem take_drop_slice (xs : List Byte) (r w : Nat) (h : r ≤ w) :
    (xs.drop r).take (w - r) = (xs.take w).drop r := by
  rw [List.take_drop]; congr 2; omega

theorem slice_write (xs d tail : List Byte) (r w : Nat) (hrw : r ≤ w) (hw : w ≤ xs.length) :
    ((xs.take w ++ d ++ tail).drop r).take (w + d.length - r) = (xs.drop r).take (w - r) ++ d := by
  rw [List.append_assoc, List.drop_append_of_le_length (by simp; omega)]
  rw [← List.append_assoc, List.take_append_of_le_length (by simp; omega)]
  rw [List.take_of_length_le (by simp; omega)]
  rw [List.drop_take]

theorem read_range_eq (xs : List Byte) (i n : Nat) (h : i + n ≤ xs.length) :
    read_range xs i n = some ((xs.drop i).take n) := by
  simp [read_range, h]

theorem write_range_eq (xs : List Byte) (i : Nat) (d : List Byte) (h : i + d.length ≤ xs.length) :
    write_range xs i d = some (xs.take i ++ d ++ xs.drop (i + d.length)) := by
  simp [write_range, h]

theorem vector_insert_eq (v : List Byte) (pos : Nat) (d : List Byte) (h : pos ≤ v.length) :
    vector_insert v pos d = some (v.take pos ++ d ++ v.drop pos) := by
  simp [vector_insert, h]

theorem compact_eq (xs : List Byte) (r w : Nat) (hrw : r ≤ w) (hw : w ≤ xs.length) :
    compact xs r w = some ((xs.drop r).take (w - r) ++ xs.drop (w - r)) := by
  unfold compact
  rw [read_range_eq _ _ _ (by omega)]
  simp only
  rw [write_range_eq _ _ _ (by simp)]
  have : (w - r) ⊓ (xs.length - r) = w - r := by omega
  simp [this]

theorem length_vector_resize (v : List Byte) (m : Nat) : (vector_resize v m).length = m := by
  simp [vector_resize]; omega

theorem take_vector_resize (v : List Byte) (k m : Nat) (hk : k ≤ v.length) (hm : k ≤ m) :
    (vector_resize v m).take k = v.take k := by
  unfold vector_resize
  rw [List.take_append_of_le_length (by simp; omega), List.take_take]
  congr 1; omega

/-! ## The operations on well-formed states -/

theorem set_dynamic_eq (T : Nat) (b : Buffer) (hwf : b.wf T) (hin : b.is_dynmic_ = false) :
    b.set_dynamic = some
      { is_dynmic_ := true, reader_pos_ := 0, writer_pos_ := b.readable,
        static_data_ := b.static_data_,
        dynamic_data_ := some (b.readable_bytes ++ List.replicate b.readable 0) } := by
  obtain ⟨dyn, r, w, st, dd⟩ := b
  simp only at hin
  subst hin
  obtain ⟨⟨hlen, -⟩, hrw, hcap⟩ := hwf
  simp [Buffer.capacity] at hlen hrw hcap
  simp [Buffer.set_dynamic, Buffer.is_dynmic, Buffer.readable, Buffer.readable_bytes,
    Buffer.storage, vector_insert, read_range_eq st r (w - r) (by omega)]

/-- Growth branch of `make_space`. -/
theorem make_space_grow (T : Nat) (b : Buffer) (n : Nat) (hwf : b.wf T)
    (h : b.writeable T + b.prependable < n) :
    ∃ b1, b.make_space T n = some b1 ∧ b1.wf T ∧ b1.is_dynmic_ = true ∧
      b1.readable_bytes = b.readable_bytes ∧ b1.writeable T = n ∧
      b1.readable = b.readable := by
  obtain ⟨dyn, r, w, st, dd⟩ := b
  cases dyn
  · -- Inline: promotion, then resize
    have hsd := set_dynamic_eq T _ hwf rfl
    obtain ⟨⟨hlen, -⟩, hrw, hcap⟩ := hwf
    simp [Buffer.capacity] at hlen hrw hcap
    simp [Buffer.writeable, Buffer.capacity, Buffer.prependable] at h
    simp only [Buffer.make_space, Buffer.writeable, Buffer.capacity, Buffer.prependable,
      Buffer.is_dynmic, hsd]
    simp [h, Buffer.readable, Buffer.readable_bytes, Buffer.storage, Buffer.wf, Buffer.shape,
      Buffer.cursor_inv, Buffer.capacity, Buffer.writeable, hlen, length_vector_resize]
    rw [take_vector_resize _ _ _ (by simp) (by omega)]
    rw [List.take_left' (by simp; omega)]
  · -- Dynamic: resize only
    obtain ⟨⟨hlen, hsome⟩, hrw, hcap⟩ := hwf
    simp at hsome
    obtain ⟨v, rfl⟩ := Option.isSome_iff_exists.mp hsome
    simp [Buffer.capacity] at hlen hrw hcap
    simp [Buffer.writeable, Buffer.capacity, Buffer.prependable] at h
    simp [Buffer.make_space, Buffer.writeable, Buffer.capacity, Buffer.prependable,
      Buffer.is_dynmic, h, Buffer.readable, Buffer.readable_bytes, Buffer.storage, Buffer.wf,
      Buffer.shape, Buffer.cursor_inv, hlen, length_vector_resize, hrw]
    rw [take_drop_slice _ _ _ hrw, take_drop_slice _ _ _ hrw,
      take_vector_resize _ _ _ hcap (by omega)]

/-- Compaction branch of `make_space`. -/
theorem make_space_compact (T : Nat) (b : Buffer) (n : Nat) (hwf : b.wf T)
    (h : n ≤ b.writeable T + b.prependable) :
    ∃ b1, b.make_space T n = some b1 ∧ b1.wf T ∧ b1.is_dynmic_ = b.is_dynmic_ ∧
      b1.readable_bytes = b.readable_bytes ∧ b1.capacity T = b.capacity T ∧
      b1.reader_pos_ = 0 ∧ b1.writer_pos_ = b.readable := by
  obtain ⟨dyn, r, w, st, dd⟩ := b
  cases dyn
  · obtain ⟨⟨hlen, -⟩, hrw, hcap⟩ := hwf
    simp [Buffer.capacity] at hlen hrw hcap
    simp [Buffer.writeable, Buffer.capacity, Buffer.prependable] at h
    have hn : ¬ (T - w + r < n) := by omega
    simp [Buffer.make_space, Buffer.writeable, Buffer.capacity, Buffer.prependable,
      Buffer.is_dynmic, hn, compact_eq st r w hrw (by omega), Buffer.readable,
      Buffer.readable_bytes, Buffer.storage, Buffer.wf, Buffer.shape, Buffer.cursor_inv]
    refine ⟨by omega, ?_⟩
    rw [List.take_left' (by simp; omega)]
  · obtain ⟨⟨hlen, hsome⟩, hrw, hcap⟩ := hwf
    simp at hsome
    obtain ⟨v, rfl⟩ := Option.isSome_iff_exists.mp hsome
    simp [Buffer.capacity] at hlen hrw hcap
    simp [Buffer.writeable, Buffer.capacity, Buffer.prependable] at h
    have hn : ¬ (v.length - w + r < n) := by omega
    simp [Buffer.make_space, Buffer.writeable, Buffer.capacity, Buffer.prependable,
      Buffer.is_dynmic, hn, compact_eq v r w hrw (by omega), Buffer.readable,
      Buffer.readable_bytes, Buffer.storage, Buffer.wf, Buffer.shape, Buffer.cursor_inv, hlen]
    refine ⟨by omega, ?_, by omega⟩
    rw [List.take_left' (by simp; omega)]

/-- What `ensure_writable_bytes` does on a well-formed state. -/
theorem ensure_writable_bytes_spec (T : Nat) (b : Buffer) (n : Nat) (hwf : b.wf T) :
    ∃ b1, b.ensure_writable_bytes T n = some b1 ∧ b1.wf T ∧
      b1.readable_bytes = b.readable_bytes ∧ b1.readable = b.readable ∧
      n ≤ b1.writeable T ∧ (n ≤ b.writeable T → b1 = b) ∧
      b1.is_dynmic_ = (b.is_dynmic_ || decide (b.writeable T + b.prependable < n)) := by
  unfold Buffer.ensure_writable_bytes
  by_cases hroom : b.writeable T < n
  · rw [if_pos hroom]
    by_cases hfree : b.writeable T + b.prependable < n
    · obtain ⟨b1, h1, hwf1, hdyn, hbytes, hw, hr⟩ := make_space_grow T b n hwf hfree
      refine ⟨b1, ?_, hwf1, hbytes, hr, by omega, by omega, ?_⟩
      · simp [h1, hw]
      · simp [hdyn, hfree]
    · obtain ⟨b1, h1, hwf1, hdyn, hbytes, hcap, hr0, hw0⟩ :=
        make_space_compact T b n hwf (by omega)
      have hw1 : n ≤ b1.writeable T := by
        obtain ⟨-, hrw, hcapb⟩ := hwf
        rw [Buffer.writeable, hcap, hw0]
        simp only [Buffer.writeable, Buffer.prependable, Buffer.readable] at hfree ⊢
        omega
      refine ⟨b1, ?_, hwf1, hbytes, ?_, hw1, by omega, ?_⟩
      · simp [h1, hw1]
      · simp only [Buffer.readable] at *; omega
      · simp [hdyn, hfree]
  · rw [if_neg hroom]
    have hge : n ≤ b.writeable T := by omega
    refine ⟨b, by simp [hge], hwf, rfl, rfl, hge, fun _ => rfl, ?_⟩
    have : ¬ (b.writeable T + b.prependable < n) := by omega
    simp [this]

theorem has_written_eq (T : Nat) (b : Buffer) (n : Nat) (h : n ≤ b.writeable T) :
    b.has_written T n = some { b with writer_pos_ := b.writer_pos_ + n } := by
  simp [Buffer.has_written, h]

/-- What `write` does on a well-formed state. -/
theorem write_spec (T : Nat) (b : Buffer) (d : List Byte) (hwf : b.wf T) :
    ∃ b2, b.write T d = some (b2, d.length) ∧ b2.wf T ∧
      b2.readable_bytes = b.readable_bytes ++ d ∧
      b2.readable = b.readable + d.length ∧
      b2.is_dynmic_ = (b.is_dynmic_ || decide (b.writeable T + b.prependable < d.length)) := by
  obtain ⟨b1, h1, hwf1, hbytes, hr, hw, -, hmode⟩ := ensure_writable_bytes_spec T b d.length hwf
  rw [← hbytes, ← hr, ← hmode]
  unfold Buffer.write
  simp only [h1]
  clear h1 hbytes hr hmode hwf
  obtain ⟨dyn, r, w, st, dd⟩ := b1
  cases dyn
  · obtain ⟨⟨hlen, -⟩, hrw, hcap⟩ := hwf1
    simp [Buffer.capacity] at hlen hrw hcap
    simp [Buffer.writeable, Buffer.capacity] at hw
    simp only [Buffer.is_dynmic, write_range_eq st w d (by omega), Bool.not_false, if_true]
    rw [has_written_eq _ _ _ (by simpa [Buffer.writeable, Buffer.capacity] using hw)]
    simp [Buffer.wf, Buffer.shape, Buffer.cursor_inv, Buffer.capacity,
      Buffer.readable, Buffer.readable_bytes, Buffer.storage]
    refine ⟨by omega, ?_, by omega⟩
    rw [← List.append_assoc, slice_write st d _ r w hrw (by omega)]
  · obtain ⟨⟨hlen, hsome⟩, hrw, hcap⟩ := hwf1
    simp at hsome
    obtain ⟨v, rfl⟩ := Option.isSome_iff_exists.mp hsome
    simp [Buffer.capacity] at hlen hrw hcap
    simp [Buffer.writeable, Buffer.capacity] at hw
    simp only [Buffer.is_dynmic, vector_insert_eq v w d hcap, Bool.not_true,
      Bool.false_eq_true, if_false]
    rw [has_written_eq]
    · simp [Buffer.wf, Buffer.shape, Buffer.cursor_inv, Buffer.capacity,
        Buffer.readable, Buffer.readable_bytes, Buffer.storage, hlen]
      refine ⟨by omega, ?_, by omega⟩
      rw [← List.append_assoc, slice_write v d _ r w hrw (by omega)]
    · simp [Buffer.writeable, Buffer.capacity]; omega

theorem length_readable_bytes (T : Nat) (b : Buffer) (hwf : b.wf T) :
    b.readable_bytes.length = b.readable := by
  obtain ⟨dyn, r, w, st, dd⟩ := b
  cases dyn
  · obtain ⟨⟨hlen, -⟩, hrw, hcap⟩ := hwf
    simp [Buffer.capacity] at hlen hrw hcap
    simp [Buffer.readable_bytes, Buffer.storage, Buffer.readable]; omega
  · obtain ⟨⟨hlen, hsome⟩, hrw, hcap⟩ := hwf
    simp at hsome
    obtain ⟨v, rfl⟩ := Option.isSome_iff_exists.mp hsome
    simp [Buffer.capacity] at hlen hrw hcap
    simp [Buffer.readable_bytes, Buffer.storage, Buffer.readable]; omega

/-- The active storage of a well-formed state, split around the readable region. -/
theorem storage_split (T : Nat) (b : Buffer) (hwf : b.wf T) :
    ∃ stor, b.storage = some stor ∧ b.writer_pos_ ≤ stor.length ∧
      stor.drop b.reader_pos_ = b.readable_bytes ++ stor.drop b.writer_pos_ := by
  obtain ⟨dyn, r, w, st, dd⟩ := b
  cases dyn
  · obtain ⟨⟨hlen, -⟩, hrw, hcap⟩ := hwf
    simp [Buffer.capacity] at hlen hrw hcap
    refine ⟨st, rfl, by simp; omega, ?_⟩
    simp only [Buffer.readable_bytes, Buffer.storage, Bool.false_eq_true, if_false,
      Option.getD_some]
    conv_lhs => rw [← List.take_append_drop (w - r) (List.drop r st)]
    rw [List.drop_drop]; congr 2; omega
  · obtain ⟨⟨hlen, hsome⟩, hrw, hcap⟩ := hwf
    simp at hsome
    obtain ⟨v, rfl⟩ := Option.isSome_iff_exists.mp hsome
    simp [Buffer.capacity] at hlen hrw hcap
    refine ⟨v, rfl, by simpa using hcap, ?_⟩
    simp only [Buffer.readable_bytes, Buffer.storage, if_true, Option.getD_some]
    conv_lhs => rw [← List.take_append_drop (w - r) (List.drop r v)]
    rw [List.drop_drop]; congr 2; omega

/-- Reading the first `k` readable bytes through `data()`. -/
theorem peek_spec (T : Nat) (b : Buffer) (k : Nat) (hwf : b.wf T) (hk : k ≤ b.readable) :
    ∃ stor, b.storage = some stor ∧
      read_range stor b.reader_pos_ k = some (b.readable_bytes.take k) := by
  obtain ⟨stor, hs, hlen, hsplit⟩ := storage_split T b hwf
  have hrb := length_readable_bytes T b hwf
  have hrw := hwf.2.1
  refine ⟨stor, hs, ?_⟩
  rw [read_range_eq _ _ _ (by simp only [Buffer.readable] at hk; omega), hsplit,
    List.take_append_of_le_length (by omega)]

/-- What `retrieve` does on a well-formed state. -/
theorem retrieve_spec (T : Nat) (b : Buffer) (n : Nat) (hwf : b.wf T) (hn : n ≤ b.readable) :
    ∃ b1, b.retrieve n = some b1 ∧ b1.wf T ∧
      b1.readable_bytes = b.readable_bytes.drop n ∧ b1.readable = b.readable - n ∧
      b1.is_dynmic_ = b.is_dynmic_ ∧ b1.static_data_ = b.static_data_ ∧
      b1.dynamic_data_ = b.dynamic_data_ ∧
      (n = b.readable → b1.reader_pos_ = 0 ∧ b1.writer_pos_ = 0) ∧
      (n ≠ b.readable → b1.reader_pos_ = b.reader_pos_ + n ∧ b1.writer_pos_ = b.writer_pos_) := by
  have hrb := length_readable_bytes T b hwf
  obtain ⟨hshape, hrw, hcap⟩ := hwf
  rcases Nat.lt_or_ge n b.readable with hlt | hge
  · refine ⟨{ b with reader_pos_ := b.reader_pos_ + n }, ?_, ?_, ?_, ?_, rfl, rfl, rfl, ?_, ?_⟩
    · simp [Buffer.retrieve, hn, hlt]
    · refine ⟨hshape, ?_, hcap⟩
      simp only [Buffer.readable] at hlt; simp only; omega
    · simp only [Buffer.readable_bytes, Buffer.storage, List.drop_take, List.drop_drop]
      congr 1; simp only [Buffer.readable] at hlt; omega
    · simp only [Buffer.readable]; omega
    · intro h; omega
    · intro _; exact ⟨rfl, rfl⟩
  · have heq : n = b.readable := by omega
    refine ⟨b.retrieve_all, ?_, ?_, ?_, ?_, rfl, rfl, rfl, ?_, ?_⟩
    · simp [Buffer.retrieve, hn, heq]
    · refine ⟨hshape, Nat.le_refl _, Nat.zero_le _⟩
    · rw [List.drop_of_length_le (by omega)]
      simp [Buffer.readable_bytes, Buffer.retrieve_all]
    · simp [Buffer.readable, Buffer.retrieve_all] ; simp only [Buffer.readable] at heq; omega
    · intro _; exact ⟨rfl, rfl⟩
    · intro h; omega

theorem length_u32_bytes (be : Bool) (v : Nat) : (u32_bytes be v).length = 4 := by
  cases be <;> simp [u32_bytes]

theorem u32_value_bytes (be : Bool) (v : Nat) (hv : v < 2 ^ 32) :
    u32_value be (u32_bytes be v) = v := by
  cases be <;> simp [u32_bytes, u32_value] <;> omega

theorem scan_zero_append (s t : List Byte) (hs : ∀ c ∈ s, c ≠ 0) :
    scan_zero (s ++ 0 :: t) = some s.length := by
  induction s with
  | nil => simp [scan_zero]
  | cons c s ih =>
    have hc : c ≠ 0 := hs c (List.mem_cons_self _ _)
    have ih1 := ih (fun x hx => hs x (List.mem_cons_of_mem _ hx))
    simp [scan_zero, hc, ih1]

/-- What `write_string` does on a well-formed state. -/
theorem write_string_spec (T : Nat) (b : Buffer) (s : List Byte) (hwf : b.wf T) :
    ∃ b1, b.write_string T s = some b1 ∧ b1.wf T ∧
      b1.readable_bytes = b.readable_bytes ++ s := by
  cases s with
  | nil => exact ⟨b, by simp [Buffer.write_string], hwf, by simp⟩
  | cons c s =>
    obtain ⟨b1, h1, hwf1, hbytes, -⟩ := write_spec T b (c :: s) hwf
    exact ⟨b1, by simp [Buffer.write_string, h1], hwf1, hbytes⟩

/-- What `write_lenght_and_string` does on a well-formed state. -/
theorem write_lenght_and_string_spec (T : Nat) (be : Bool) (b : Buffer) (s : List Byte)
    (hwf : b.wf T) :
    ∃ b1, b.write_lenght_and_string T be s = some b1 ∧ b1.wf T ∧
      b1.readable_bytes = b.readable_bytes ++ u32_bytes be (s.length % 2 ^ 32) ++ s := by
  obtain ⟨b1, h1, hwf1, hbytes1, -⟩ := write_spec T b (u32_bytes be (s.length % 2 ^ 32)) hwf
  obtain ⟨b2, h2, hwf2, hbytes2⟩ := write_string_spec T b1 s hwf1
  refine ⟨b2, ?_, hwf2, by rw [hbytes2, hbytes1]⟩
  simp only [Buffer.write_lenght_and_string, Buffer.write_pod_u32, h1, h2]

/-- The common body of the two overloads of `read_string`. -/
theorem read_string_spec (T : Nat) (b : Buffer) (s rest : List Byte) (hwf : b.wf T)
    (hbytes : b.readable_bytes = s ++ 0 :: rest) (hs : ∀ c ∈ s, c ≠ 0) :
    ∃ b1, b.read_string = some (b1, s) ∧ b1.wf T ∧ b1.readable_bytes = 0 :: rest ∧
      b1.is_dynmic_ = b.is_dynmic_ ∧ (s = [] → b1 = b) := by
  obtain ⟨stor, hstor, hlen, hsplit⟩ := storage_split T b hwf
  have hrb := length_readable_bytes T b hwf
  have hr : b.readable = s.length + (rest.length + 1) := by rw [← hrb, hbytes]; simp
  have hscan : scan_zero (stor.drop b.reader_pos_) = some s.length := by
    rw [hsplit, hbytes, List.append_assoc]
    exact scan_zero_append s _ hs
  unfold Buffer.read_string
  have hpos : b.readable > 0 := by omega
  have hge : b.readable ≥ s.length := by omega
  simp only [hpos, if_true, hstor, hscan, hge]
  by_cases hs0 : s.length > 0
  · obtain ⟨stor1, hstor1, hread⟩ := peek_spec T b s.length hwf hge
    rw [hstor] at hstor1
    cases hstor1
    obtain ⟨b1, h1, hwf1, hb1, -, hmode, -⟩ := retrieve_spec T b s.length hwf hge
    refine ⟨b1, ?_, hwf1, ?_, hmode, ?_⟩
    · simp only [hs0, if_true, hread, h1, hbytes, List.take_left]
    · rw [hb1, hbytes, List.drop_left]
    · intro h; rw [h] at hs0; simp at hs0
  · have hnil : s = [] := List.length_eq_zero.mp (by omega)
    subst hnil
    exact ⟨b, by simp, hwf, by simpa using hbytes, rfl, fun _ => rfl⟩

/-- The common body of the two overloads of `read_lenght_and_string`. -/
theorem read_lenght_and_string_spec (T : Nat) (be : Bool) (b : Buffer) (s rest : List Byte)
    (hwf : b.wf T) (hlen : s.length < 2 ^ 32)
    (hbytes : b.readable_bytes = u32_bytes be s.length ++ s ++ rest) :
    ∃ b2, b.read_lenght_and_string be = some (b2, s) ∧ b2.wf T ∧ b2.readable_bytes = rest ∧
      b2.is_dynmic_ = b.is_dynmic_ := by
  have hrb := length_readable_bytes T b hwf
  have hr : b.readable = 4 + s.length + rest.length := by
    rw [← hrb, hbytes]; simp [length_u32_bytes]; omega
  have h4 : b.readable ≥ 4 := by omega
  obtain ⟨stor, hstor, hread⟩ := peek_spec T b 4 hwf h4
  have hraw : b.readable_bytes.take 4 = u32_bytes be s.length := by
    rw [hbytes, List.append_assoc, List.take_left' (length_u32_bytes be _)]
  obtain ⟨b1, h1, hwf1, hb1, hr1, hmode1, -⟩ := retrieve_spec T b 4 hwf h4
  have hb1' : b1.readable_bytes = s ++ rest := by
    rw [hb1, hbytes, List.append_assoc, List.drop_left' (length_u32_bytes be _)]
  unfold Buffer.read_lenght_and_string
  simp only [h4, if_true, hstor, hread, hraw, u32_value_bytes be _ hlen, h1]
  by_cases hs0 : s.length > 0
  · have hge : s.length ≤ b1.readable := by rw [hr1, hr]; omega
    obtain ⟨stor1, hstor1, hread1⟩ := peek_spec T b1 s.length hwf1 hge
    obtain ⟨b2, h2, hwf2, hb2, -, hmode2, -⟩ := retrieve_spec T b1 s.length hwf1 hge
    refine ⟨b2, ?_, hwf2, ?_, by rw [hmode2, hmode1]⟩
    · simp only [hs0, if_true, hstor1, hread1, h2, hb1', List.take_left]
    · rw [hb2, hb1', List.drop_left]
  · have hnil : s = [] := List.length_eq_zero.mp (by omega)
    subst hnil
    exact ⟨b1, by simp, hwf1, by simpa using hb1', hmode1⟩

theorem read_string_out_eq (b : Buffer) (out_value : List Byte) :
    b.read_string_out out_value = b.read_string := rfl

theorem read_lenght_and_string_out_eq (be : Bool) (b : Buffer) (out_value : List Byte) :
    b.read_lenght_and_string_out be out_value = b.read_lenght_and_string be := rfl

theorem split_at_first_zero (l : List Byte) (h : (0 : Byte) ∈ l) :
    ∃ s rest, l = s ++ 0 :: rest ∧ ∀ c ∈ s, c ≠ 0 := by
  induction l with
  | nil => simp at h
  | cons c l ih =>
    by_cases hc : c = 0
    · exact ⟨[], l, by simp [hc], by simp⟩
    · have hl : (0 : Byte) ∈ l := by
        rcases List.mem_cons.mp h with h0 | h0
        · exact absurd h0.symm hc
        · exact h0
      obtain ⟨s, rest, hsplit, hs⟩ := ih hl
      refine ⟨c :: s, rest, by simp [hsplit], ?_⟩
      intro x hx
      rcases List.mem_cons.mp hx with h0 | h0
      · rw [h0]; exact hc
      · exact hs x h0

/-- A `read_string` call whose readable region holds a terminator returns. -/
theorem read_string_valid (T : Nat) (b : Buffer) (hwf : b.wf T)
    (h0 : (0 : Byte) ∈ b.readable_bytes) :
    ∃ b1 value, b.read_string = some (b1, value) ∧ b1.wf T ∧ b1.is_dynmic_ = b.is_dynmic_ := by
  obtain ⟨s, rest, hsplit, hs⟩ := split_at_first_zero _ h0
  obtain ⟨b1, h1, hwf1, -, hmode, -⟩ := read_string_spec T b s rest hwf hsplit hs
  exact ⟨b1, s, h1, hwf1, hmode⟩

/-- A `read_lenght_and_string` call whose declared payload is readable returns. -/
theorem read_lenght_and_string_valid (T : Nat) (be : Bool) (b : Buffer) (hwf : b.wf T)
    (h4 : 4 ≤ b.readable)
    (hlen : 4 + u32_value be (b.readable_bytes.take 4) ≤ b.readable) :
    ∃ b2 value, b.read_lenght_and_string be = some (b2, value) ∧ b2.wf T ∧
      b2.is_dynmic_ = b.is_dynmic_ := by
  obtain ⟨stor, hstor, hread⟩ := peek_spec T b 4 hwf h4
  obtain ⟨b1, h1, hwf1, -, hr1, hmode1, -⟩ := retrieve_spec T b 4 hwf h4
  have h4' : b.readable ≥ 4 := h4
  unfold Buffer.read_lenght_and_string
  simp only [h4', if_true, hstor, hread, h1]
  by_cases hpos : u32_value be (b.readable_bytes.take 4) > 0
  · have hge : u32_value be (b.readable_bytes.take 4) ≤ b1.readable := by rw [hr1]; omega
    obtain ⟨stor1, hstor1, hread1⟩ := peek_spec T b1 _ hwf1 hge
    obtain ⟨b2, h2, hwf2, -, -, hmode2, -⟩ := retrieve_spec T b1 _ hwf1 hge
    exact ⟨b2, List.take (u32_value be (b.readable_bytes.take 4)) b1.readable_bytes,
      by simp only [hpos, if_true, hstor1, hread1, h2], hwf2, by rw [hmode2, hmode1]⟩
  · exact ⟨b1, [], by simp only [hpos, if_false], hwf1, hmode1⟩

/-- What `clear` does on a well-formed state. -/
theorem clear_spec (T : Nat) (b : Buffer) (hwf : b.wf T) :
    ∃ b1, b.clear = some b1 ∧ b1.wf T ∧ b1.is_dynmic_ = b.is_dynmic_ ∧
      b1.reader_pos_ = 0 ∧ b1.writer_pos_ = 0 := by
  obtain ⟨dyn, r, w, st, dd⟩ := b
  cases dyn
  · obtain ⟨⟨hlen, -⟩, -⟩ := hwf
    simp at hlen
    simp [Buffer.clear, Buffer.is_dynmic, Buffer.wf, Buffer.shape, Buffer.cursor_inv, hlen]
  · obtain ⟨⟨hlen, hsome⟩, -⟩ := hwf
    simp at hsome
    obtain ⟨v, rfl⟩ := Option.isSome_iff_exists.mp hsome
    simp at hlen
    simp [Buffer.clear, Buffer.is_dynmic, Buffer.wf, Buffer.shape, Buffer.cursor_inv, hlen]

theorem readable_bytes_front (x y st : List Byte) (k : Nat) (hk : x.length = k) :
    Buffer.readable_bytes
      { is_dynmic_ := true, reader_pos_ := 0, writer_pos_ := k, static_data_ := st,
        dynamic_data_ := some (x ++ y) } = x := by
  simp [Buffer.readable_bytes, Buffer.storage, List.take_left' hk]

/-- What `reserve` does on a well-formed state. -/
theorem reserve_spec (T : Nat) (b : Buffer) (n : Nat) (hwf : b.wf T) :
    ∃ b1, b.reserve T n = some b1 ∧ b1.wf T ∧ b1.readable_bytes = b.readable_bytes ∧
      b1.readable = b.readable ∧
      (b.is_dynmic_ = false → n ≤ T → b1 = b) ∧
      (b.is_dynmic_ = true → b1 = b) ∧
      (b.is_dynmic_ = true ∨ T < n → b1.is_dynmic_ = true) := by
  cases hmode : b.is_dynmic_
  · by_cases hn : n ≤ T
    · refine ⟨b, by simp [Buffer.reserve, Buffer.is_dynmic, hmode, hn], hwf, rfl, rfl,
        fun _ _ => rfl, fun h => by simp at h, ?_⟩
      intro h; rcases h with h | h
      · simp at h
      · omega
    · have hsd := set_dynamic_eq T b hwf hmode
      have hrb := length_readable_bytes T b hwf
      obtain ⟨⟨hlen, -⟩, hrw, hcap⟩ := hwf
      refine ⟨{ is_dynmic_ := true, reader_pos_ := 0, writer_pos_ := b.readable,
                static_data_ := b.static_data_,
                dynamic_data_ := some (b.readable_bytes ++ List.replicate b.readable 0) },
        by simp [Buffer.reserve, Buffer.is_dynmic, hmode, hn, hsd, Buffer.vector_reserve],
        ?_, ?_, ?_, fun _ h => absurd h hn, fun h => by simp at h, fun _ => rfl⟩
      · refine ⟨⟨hlen, by simp⟩, by simp, ?_⟩
        simp [Buffer.capacity]
      · exact readable_bytes_front _ _ _ _ hrb
      · simp [Buffer.readable]
  · obtain ⟨v, hv⟩ := Option.isSome_iff_exists.mp (hwf.1.2 hmode)
    refine ⟨b, by simp [Buffer.reserve, Buffer.is_dynmic, hmode, Buffer.vector_reserve, hv],
      hwf, rfl, rfl, fun h => by simp at h, fun _ => rfl, fun _ => hmode⟩

/-- Swapping with the other object exchanges the two objects whole. -/
theorem swap_eq (s : Sys) (a : Bool) : Buffer.swap s a (!a) = (s.2, s.1) := by
  obtain ⟨x, y⟩ := s
  cases a <;> simp [Buffer.swap, Sys.get, Sys.set]

/-- Swapping an object with itself changes nothing. -/
theorem swap_self (s : Sys) (a : Bool) : Buffer.swap s a a = s := by
  simp [Buffer.swap]

theorem retrieve_all_wf (T : Nat) (b : Buffer) (hwf : b.wf T) : b.retrieve_all.wf T :=
  ⟨hwf.1, Nat.le_refl _, Nat.zero_le _⟩

theorem has_written_spec (T : Nat) (b : Buffer) (n : Nat) (hwf : b.wf T)
    (hn : n ≤ b.writeable T) :
    ∃ b1, b.has_written T n = some b1 ∧ b1.wf T ∧ b1.is_dynmic_ = b.is_dynmic_ := by
  refine ⟨_, has_written_eq T b n hn, ?_, rfl⟩
  obtain ⟨hshape, hrw, hcap⟩ := hwf
  refine ⟨hshape, ?_, ?_⟩
  · show b.reader_pos_ ≤ b.writer_pos_ + n
    omega
  · show b.writer_pos_ + n ≤ b.capacity T
    simp only [Buffer.writeable] at hn
    omega

theorem get_wf (T : Nat) (s : Sys) (a : Bool) (h1 : s.1.wf T) (h2 : s.2.wf T) :
    (s.get a).wf T := by
  cases a
  · exact h1
  · exact h2

theorem set_wf (T : Nat) (s : Sys) (a : Bool) (b : Buffer) (h1 : s.1.wf T) (h2 : s.2.wf T)
    (hb : b.wf T) : (s.set a b).1.wf T ∧ (s.set a b).2.wf T := by
  cases a
  · exact ⟨hb, h2⟩
  · exact ⟨h1, hb⟩

theorem on_wf (T : Nat) (s : Sys) (a : Bool) (f : Buffer → Option Buffer) (b1 : Buffer)
    (hf : f (s.get a) = some b1) (hb1 : b1.wf T) (h1 : s.1.wf T) (h2 : s.2.wf T) :
    ∃ s1, s.on a f = some s1 ∧ s1.1.wf T ∧ s1.2.wf T :=
  ⟨s.set a b1, by simp [Sys.on, hf], set_wf T s a b1 h1 h2 hb1⟩

theorem on_other (s s1 : Sys) (a : Bool) (f : Buffer → Option Buffer)
    (h : s.on a f = some s1) : s1.get (!a) = s.get (!a) := by
  unfold Sys.on at h
  cases hf : f (s.get a) with
  | none => simp [hf] at h
  | some b =>
    simp only [hf, Option.some.injEq] at h
    subst h
    cases a <;> simp [Sys.get, Sys.set]

/-- One call with a valid argument returns and keeps both objects well formed. -/
theorem step_spec (T : Nat) (s : Sys) (a : Bool) (op : Op) (h1 : s.1.wf T) (h2 : s.2.wf T)
    (hv : op.valid s a = true) :
    ∃ s1, op.step T s a = some s1 ∧ s1.1.wf T ∧ s1.2.wf T := by
  have hg := get_wf T s a h1 h2
  cases op with
  | write d =>
    obtain ⟨b1, hw, hwf1, -⟩ := write_spec T (s.get a) d hg
    refine on_wf T s a (fun b => match b.write T d with
      | none => none
      | some (b1, _) => some b1) b1 ?_ hwf1 h1 h2
    simp only [hw]
  | retrieve n =>
    have hn : n ≤ (s.get a).readable := by simpa [Op.valid] using hv
    obtain ⟨b1, hr, hwf1, -⟩ := retrieve_spec T (s.get a) n hg hn
    exact on_wf T s a (fun b => b.retrieve n) b1 hr hwf1 h1 h2
  | reserve n =>
    obtain ⟨b1, hr, hwf1, -⟩ := reserve_spec T (s.get a) n hg
    exact on_wf T s a (fun b => b.reserve T n) b1 hr hwf1 h1 h2
  | clear =>
    obtain ⟨b1, hc, hwf1, -⟩ := clear_spec T (s.get a) hg
    exact on_wf T s a Buffer.clear b1 hc hwf1 h1 h2
  | swap =>
    refine ⟨Buffer.swap s a (!a), rfl, ?_⟩
    rw [swap_eq]
    exact ⟨h2, h1⟩

/-- A sequence of calls with valid arguments returns, and every state it passes
through is well formed. -/
theorem run_trace_spec (T : Nat) (ops : List (Bool × Op)) :
    ∀ s : Sys, s.1.wf T → s.2.wf T → args_valid T s ops = true →
      ∃ tr, run_trace T s ops = some tr ∧ tr.length = ops.length ∧
        ∀ x ∈ tr, x.1.wf T ∧ x.2.wf T := by
  induction ops with
  | nil => intro s _ _ _; exact ⟨[], rfl, rfl, by simp⟩
  | cons hd rest ih =>
    obtain ⟨a, op⟩ := hd
    intro s h1 h2 hv
    simp only [args_valid, Bool.and_eq_true] at hv
    obtain ⟨s1, hstep, hw1, hw2⟩ := step_spec T s a op h1 h2 hv.1
    have hrest : args_valid T s1 rest = true := by simpa [hstep] using hv.2
    obtain ⟨tr, htr, hlen, hall⟩ := ih s1 hw1 hw2 hrest
    refine ⟨s1 :: tr, by simp [run_trace, hstep, htr], by simp [hlen], ?_⟩
    intro x hx
    rcases List.mem_cons.mp hx with hx | hx
    · rw [hx]; exact ⟨hw1, hw2⟩
    · exact hall x hx

theorem new_wf (T : Nat) (uninit : List Byte) (hu : uninit.length = T) :
    (Buffer.new uninit).wf T :=
  ⟨⟨hu, by simp [Buffer.new]⟩, Nat.le_refl _, Nat.zero_le _⟩

/-- One member call that meets its precondition returns, keeps the state well
formed and keeps a Dynamic buffer Dynamic. -/
theorem member_spec (T : Nat) (be : Bool) (b : Buffer) (op : MemberOp) (hwf : b.wf T)
    (hv : op.valid T be b = true) :
    ∃ b1, op.apply T be b = some b1 ∧ b1.wf T ∧ (b.is_dynmic_ = true → b1.is_dynmic_ = true) := by
  cases op with
  | write d =>
    obtain ⟨b1, hw, hwf1, -, -, hmode⟩ := write_spec T b d hwf
    exact ⟨b1, by simp only [MemberOp.apply, hw], hwf1, fun h => by simp [hmode, h]⟩
  | retrieve n =>
    have hn : n ≤ b.readable := by simpa [MemberOp.valid] using hv
    obtain ⟨b1, hr, hwf1, -, -, hmode, -⟩ := retrieve_spec T b n hwf hn
    exact ⟨b1, hr, hwf1, fun h => by rw [hmode, h]⟩
  | retrieve_all => exact ⟨b.retrieve_all, rfl, retrieve_all_wf T b hwf, fun h => h⟩
  | has_written n =>
    have hn : n ≤ b.writeable T := by simpa [MemberOp.valid] using hv
    obtain ⟨b1, h1, hwf1, hmode⟩ := has_written_spec T b n hwf hn
    exact ⟨b1, h1, hwf1, fun h => by rw [hmode, h]⟩
  | reserve n =>
    obtain ⟨b1, hr, hwf1, -, -, -, -, hmode⟩ := reserve_spec T b n hwf
    exact ⟨b1, hr, hwf1, fun h => hmode (Or.inl h)⟩
  | clear =>
    obtain ⟨b1, hc, hwf1, hmode, -⟩ := clear_spec T b hwf
    exact ⟨b1, hc, hwf1, fun h => by rw [hmode, h]⟩
  | ensure_writable_bytes n =>
    obtain ⟨b1, he, hwf1, -, -, -, -, hmode⟩ := ensure_writable_bytes_spec T b n hwf
    exact ⟨b1, he, hwf1, fun h => by simp [hmode, h]⟩
  | read_string =>
    have h0 : (0 : Byte) ∈ b.readable_bytes := by simpa [MemberOp.valid] using hv
    obtain ⟨b1, v, hr, hwf1, hmode⟩ := read_string_valid T b hwf h0
    exact ⟨b1, by simp only [MemberOp.apply, hr], hwf1, fun h => by rw [hmode, h]⟩
  | read_string_out out_value =>
    have h0 : (0 : Byte) ∈ b.readable_bytes := by simpa [MemberOp.valid] using hv
    obtain ⟨b1, v, hr, hwf1, hmode⟩ := read_string_valid T b hwf h0
    exact ⟨b1, by simp only [MemberOp.apply, read_string_out_eq, hr], hwf1,
      fun h => by rw [hmode, h]⟩
  | read_lenght_and_string =>
    have h0 : 4 ≤ b.readable ∧ 4 + u32_value be (b.readable_bytes.take 4) ≤ b.readable := by
      simpa [MemberOp.valid] using hv
    obtain ⟨b1, v, hr, hwf1, hmode⟩ := read_lenght_and_string_valid T be b hwf h0.1 h0.2
    exact ⟨b1, by simp only [MemberOp.apply, hr], hwf1, fun h => by rw [hmode, h]⟩
  | read_lenght_and_string_out out_value =>
    have h0 : 4 ≤ b.readable ∧ 4 + u32_value be (b.readable_bytes.take 4) ≤ b.readable := by
      simpa [MemberOp.valid] using hv
    obtain ⟨b1, v, hr, hwf1, hmode⟩ := read_lenght_and_string_valid T be b hwf h0.1 h0.2
    exact ⟨b1, by simp only [MemberOp.apply, read_lenght_and_string_out_eq, hr], hwf1,
      fun h => by rw [hmode, h]⟩

/-- A sequence of member calls that meet their preconditions returns and keeps a
Dynamic buffer Dynamic. -/
theorem run_members_spec (T : Nat) (be : Bool) (ops : List MemberOp) :
    ∀ b : Buffer, b.wf T → b.is_dynmic_ = true → members_valid T be b ops = true →
      ∃ b1, run_members T be b ops = some b1 ∧ b1.wf T ∧ b1.is_dynmic_ = true := by
  induction ops with
  | nil => intro b hwf hdyn _; exact ⟨b, rfl, hwf, hdyn⟩
  | cons op rest ih =>
    intro b hwf hdyn hv
    simp only [members_valid, Bool.and_eq_true] at hv
    obtain ⟨b1, h1, hwf1, hmode⟩ := member_spec T be b op hwf hv.1
    have hrest : members_valid T be b1 rest = true := by simpa [h1] using hv.2
    obtain ⟨b2, h2, hwf2, hdyn2⟩ := ih b1 hwf1 (hmode hdyn) hrest
    exact ⟨b2, by simp [run_members, h1, h2], hwf2, hdyn2⟩

theorem memcpy_static_eq (T : Nat) (dst src : List Byte) (hd : dst.length = T)
    (hs : src.length = T) : memcpy_static T dst src = some src := by
  unfold memcpy_static
  rw [read_range_eq _ _ _ (by omega)]
  simp only [List.drop_zero]
  rw [List.take_of_length_le (by omega), write_range_eq _ _ _ (by omega)]
  simp [List.drop_of_length_le (show dst.length ≤ src.length by omega)]

/-- What the move constructor does. -/
theorem move_ctor_spec (T : Nat) (uninit : List Byte) (a : Buffer) (hu : uninit.length = T)
    (ha : a.shape T) :
    ∃ b a1, Buffer.move_ctor T uninit a = some (b, a1) ∧
      b.is_dynmic_ = a.is_dynmic_ ∧ b.reader_pos_ = a.reader_pos_ ∧
      b.writer_pos_ = a.writer_pos_ ∧ b.readable_bytes = a.readable_bytes ∧ b.shape T ∧
      a1.reader_pos_ = 0 ∧ a1.writer_pos_ = 0 ∧ a1.is_dynmic_ = false ∧ a1.shape T := by
  obtain ⟨dyn, r, w, st, dd⟩ := a
  obtain ⟨hlen, hsome⟩ := ha
  simp only at hlen
  cases dyn
  · simp only [Buffer.move_ctor, Buffer.is_dynmic, memcpy_static_eq T uninit st hu hlen,
      Bool.not_false, if_true]
    refine ⟨_, _, rfl, ?_⟩
    simp [Buffer.readable_bytes, Buffer.storage, Buffer.shape, hlen]
  · simp at hsome
    simp only [Buffer.move_ctor, Buffer.is_dynmic, Bool.not_true, Bool.false_eq_true, if_false]
    refine ⟨_, _, rfl, ?_⟩
    simp [Buffer.readable_bytes, Buffer.storage, Buffer.shape, hlen, hu, hsome]

/-- What the move assignment from a distinct object does. -/
theorem move_assign_spec (T : Nat) (s : Sys) (this rhs : Bool) (hne : rhs ≠ this)
    (hthis : (s.get this).shape T) (hrhs : (s.get rhs).shape T) :
    ∃ s1, Buffer.move_assign T s this rhs = some s1 ∧
      (s1.get this).is_dynmic_ = (s.get rhs).is_dynmic_ ∧
      (s1.get this).reader_pos_ = (s.get rhs).reader_pos_ ∧
      (s1.get this).writer_pos_ = (s.get rhs).writer_pos_ ∧
      (s1.get this).readable_bytes = (s.get rhs).readable_bytes ∧
      (s1.get this).shape T ∧
      (s1.get rhs).reader_pos_ = 0 ∧ (s1.get rhs).writer_pos_ = 0 ∧
      (s1.get rhs).is_dynmic_ = false ∧ (s1.get rhs).shape T := by
  obtain ⟨x, y⟩ := s
  cases this <;> cases rhs <;> simp at hne
  · obtain ⟨dyn, r, w, st, dd⟩ := y
    obtain ⟨hlenx, -⟩ := hthis
    obtain ⟨hlen, hsome⟩ := hrhs
    simp only [Sys.get] at hlenx hlen hsome
    simp at hlenx hlen hsome
    cases dyn
    · simp [Buffer.move_assign, Buffer.is_dynmic, Sys.get, Sys.set,
        memcpy_static_eq T x.static_data_ st hlenx hlen,
        Buffer.readable_bytes, Buffer.storage, Buffer.shape, hlen]
    · simp at hsome
      simp [Buffer.move_assign, Buffer.is_dynmic, Sys.get, Sys.set, Buffer.readable_bytes,
        Buffer.storage, Buffer.shape, hlen, hlenx, hsome]
  · obtain ⟨dyn, r, w, st, dd⟩ := x
    obtain ⟨hleny, -⟩ := hthis
    obtain ⟨hlen, hsome⟩ := hrhs
    simp only [Sys.get] at hleny hlen hsome
    simp at hleny hlen hsome
    cases dyn
    · simp [Buffer.move_assign, Buffer.is_dynmic, Sys.get, Sys.set,
        memcpy_static_eq T y.static_data_ st hleny hlen,
        Buffer.readable_bytes, Buffer.storage, Buffer.shape, hlen]
    · simp at hsome
      simp [Buffer.move_assign, Buffer.is_dynmic, Sys.get, Sys.set, Buffer.readable_bytes,
        Buffer.storage, Buffer.shape, hlen, hleny, hsome]

/-- What the copy constructor does. -/
theorem copy_ctor_spec (T : Nat) (uninit : List Byte) (a : Buffer) (hu : uninit.length = T)
    (ha : a.shape T) :
    ∃ b, Buffer.copy_ctor T uninit a = some b ∧
      b.is_dynmic_ = a.is_dynmic_ ∧ b.reader_pos_ = a.reader_pos_ ∧
      b.writer_pos_ = a.writer_pos_ ∧ b.readable_bytes = a.readable_bytes ∧ b.shape T := by
  obtain ⟨dyn, r, w, st, dd⟩ := a
  obtain ⟨hlen, hsome⟩ := ha
  simp only at hlen
  cases dyn
  · simp [Buffer.copy_ctor, Buffer.is_dynmic, memcpy_static_eq T uninit st hu hlen,
      Buffer.readable_bytes, Buffer.storage, Buffer.shape, hlen]
  · simp at hsome
    obtain ⟨v, rfl⟩ := Option.isSome_iff_exists.mp hsome
    simp [Buffer.copy_ctor, Buffer.is_dynmic, Buffer.readable_bytes, Buffer.storage,
      Buffer.shape, hu]

/-- What the copy assignment from a distinct object does. -/
theorem copy_assign_spec (T : Nat) (s : Sys) (this rhs : Bool) (hne : rhs ≠ this)
    (hthis : (s.get this).shape T) (hrhs : (s.get rhs).shape T) :
    ∃ s1, Buffer.copy_assign T s this rhs = some s1 ∧ s1.get rhs = s.get rhs ∧
      (s1.get this).is_dynmic_ = (s.get rhs).is_dynmic_ ∧
      (s1.get this).reader_pos_ = (s.get rhs).reader_pos_ ∧
      (s1.get this).writer_pos_ = (s.get rhs).writer_pos_ ∧
      (s1.get this).readable_bytes = (s.get rhs).readable_bytes ∧
      (s1.get this).shape T := by
  obtain ⟨x, y⟩ := s
  cases this <;> cases rhs <;> simp at hne
  · obtain ⟨dyn, r, w, st, dd⟩ := y
    obtain ⟨hlenx, -⟩ := hthis
    obtain ⟨hlen, hsome⟩ := hrhs
    simp only [Sys.get] at hlenx hlen hsome
    simp at hlenx hlen hsome
    cases dyn
    · simp [Buffer.copy_assign, Buffer.is_dynmic, Sys.get, Sys.set,
        memcpy_static_eq T x.static_data_ st hlenx hlen,
        Buffer.readable_bytes, Buffer.storage, Buffer.shape, hlen]
    · simp at hsome
      obtain ⟨v, rfl⟩ := Option.isSome_iff_exists.mp hsome
      by_cases hnull : x.dynamic_data_ = none <;>
        simp [Buffer.copy_assign, Buffer.is_dynmic, Sys.get, Sys.set, Buffer.readable_bytes,
          Buffer.storage, Buffer.shape, hlenx, hnull]
  · obtain ⟨dyn, r, w, st, dd⟩ := x
    obtain ⟨hleny, -⟩ := hthis
    obtain ⟨hlen, hsome⟩ := hrhs
    simp only [Sys.get] at hleny hlen hsome
    simp at hleny hlen hsome
    cases dyn
    · simp [Buffer.copy_assign, Buffer.is_dynmic, Sys.get, Sys.set,
        memcpy_static_eq T y.static_data_ st hleny hlen,
        Buffer.readable_bytes, Buffer.storage, Buffer.shape, hlen]
    · simp at hsome
      obtain ⟨v, rfl⟩ := Option.isSome_iff_exists.mp hsome
      by_cases hnull : y.dynamic_data_ = none <;>
        simp [Buffer.copy_assign, Buffer.is_dynmic, Sys.get, Sys.set, Buffer.readable_bytes,
          Buffer.storage, Buffer.shape, hleny, hnull]

/-- The three steps `Buffer::write` is made of. -/
theorem write_eq_steps (T : Nat) (b : Buffer) (d : List Byte) :
    b.write T d =
      match b.ensure_writable_bytes T d.length with
      | none => none
      | some b1 =>
        match b1.write_copy d with
        | none => none
        | some b2 =>
          match b2.has_written T d.length with
          | none => none
          | some b3 => some (b3, d.length) := rfl

/-- The copy step on a well-formed Inline state with room for the bytes. -/
theorem write_copy_inline (T : Nat) (b : Buffer) (d : List Byte) (hwf : b.wf T)
    (hin : b.is_dynmic_ = false) (hroom : d.length ≤ b.writeable T) :
    b.write_copy d = some { b with
      static_data_ := (List.take b.writer_pos_ b.static_data_ ++ d ++
        List.drop (b.writer_pos_ + d.length) b.static_data_) } := by
  obtain ⟨⟨hlen, -⟩, hrw, hcap⟩ := hwf
  simp only [Buffer.capacity, hin, Bool.false_eq_true, if_false] at hcap
  simp only [Buffer.writeable, Buffer.capacity, hin, Bool.false_eq_true, if_false] at hroom
  simp only [Buffer.write_copy, Buffer.is_dynmic, hin, Bool.not_false, if_true,
    write_range_eq b.static_data_ b.writer_pos_ d (by omega)]

/-- The copy step on a well-formed Dynamic state. -/
theorem write_copy_dynamic (T : Nat) (b : Buffer) (d v : List Byte) (hwf : b.wf T)
    (hdyn : b.is_dynmic_ = true) (hv : b.dynamic_data_ = some v) :
    b.write_copy d = some { b with
      dynamic_data_ := some (List.take b.writer_pos_ v ++ d ++ List.drop b.writer_pos_ v) } := by
  obtain ⟨-, hrw, hcap⟩ := hwf
  simp only [Buffer.capacity, hdyn, if_true, hv, Option.getD_some] at hcap
  simp only [Buffer.write_copy, Buffer.is_dynmic, hdyn, Bool.not_true, Bool.false_eq_true,
    if_false, hv, vector_insert_eq v b.writer_pos_ d hcap]

/-- The body shared by the two overloads of `read_string`, with the cursors. -/
theorem read_string_cursors (T : Nat) (b : Buffer) (s rest : List Byte) (hwf : b.wf T)
    (hbytes : b.readable_bytes = s ++ 0 :: rest) (hs : ∀ c ∈ s, c ≠ 0) :
    ∃ b1, b.read_string = some (b1, s) ∧ b1.readable_bytes = 0 :: rest ∧
      b1.reader_pos_ = b.reader_pos_ + s.length ∧ b1.writer_pos_ = b.writer_pos_ ∧
      b1.readable + s.length = b.readable ∧ (s = [] → b1 = b) := by
  obtain ⟨b1, h1, hwf1, hb1, -, hnil⟩ := read_string_spec T b s rest hwf hbytes hs
  have hrb := length_readable_bytes T b hwf
  have hr : b.readable = s.length + (rest.length + 1) := by rw [← hrb, hbytes]; simp
  by_cases hs0 : s = []
  · have hb := hnil hs0
    subst hb
    exact ⟨b1, h1, hb1, by simp [hs0], rfl, by simp [hs0], fun _ => rfl⟩
  · have hpos : s.length > 0 := List.length_pos.mpr hs0
    obtain ⟨b2, h2, -, -, hr2, -, -, -, -, hpart⟩ :=
      retrieve_spec T b s.length hwf (by omega)
    obtain ⟨stor, hstor, hlen, hsplit⟩ := storage_split T b hwf
    have hscan : scan_zero (stor.drop b.reader_pos_) = some s.length := by
      rw [hsplit, hbytes, List.append_assoc]
      exact scan_zero_append s _ hs
    obtain ⟨stor1, hstor1, hread⟩ := peek_spec T b s.length hwf (by omega)
    rw [hstor] at hstor1
    cases hstor1
    have hge : b.readable ≥ s.length := by omega
    have hrpos : b.readable > 0 := by omega
    have h2' : b.read_string = some (b2, s) := by
      unfold Buffer.read_string
      simp only [hrpos, if_true, hstor, hscan, hge, hpos, hread, h2, hbytes, List.take_left]
    have hb12 : b1 = b2 := by
      have := h1.symm.trans h2'
      simpa using this
    subst hb12
    obtain ⟨hrd, hwr⟩ := hpart (by omega)
    exact ⟨b1, h1, hb1, hrd, hwr, by omega, fun h => absurd h hs0⟩

/-! ## The `size_t` members where nothing wraps -/

theorem size_t_add_eq (a b : Nat) (h : a + b < 2 ^ 64) : size_t_add a b = a + b :=
  Nat.mod_eq_of_lt h

theorem size_t_sub_eq (a b : Nat) (hb : b ≤ a) (ha : a < 2 ^ 64) : size_t_sub a b = a - b := by
  unfold size_t_sub
  omega

/-- On a state satisfying the cursor invariant whose capacity is a `size_t`
value, `writeable()` computed in `size_t` is `capacity - writer_pos`. -/
theorem writeable_size_t_eq (T : Nat) (b : Buffer) (hinv : b.cursor_inv T)
    (hfit : b.capacity T < 2 ^ 64) : b.writeable_size_t T = b.writeable T :=
  size_t_sub_eq _ _ hinv.2 hfit

/-- The capacity after the growth branch of `make_space` is the sum given to
`resize`. -/
theorem make_space_grow_capacity (T : Nat) (b b1 : Buffer) (n : Nat) (hwf : b.wf T)
    (h : b.writeable T + b.prependable < n) (h1 : b.make_space T n = some b1) :
    b1.capacity T = b.growth_sum n := by
  obtain ⟨dyn, r, w, st, dd⟩ := b
  cases dyn
  · have hsd := set_dynamic_eq T _ hwf rfl
    simp [Buffer.writeable, Buffer.capacity, Buffer.prependable] at h
    simp only [Buffer.make_space, Buffer.writeable, Buffer.capacity, Buffer.prependable,
      Buffer.is_dynmic, hsd] at h1
    simp [h] at h1
    subst h1
    simp [Buffer.capacity, Buffer.growth_sum, Buffer.readable, length_vector_resize]
  · obtain ⟨⟨-, hsome⟩, -, -⟩ := hwf
    simp at hsome
    obtain ⟨v, rfl⟩ := Option.isSome_iff_exists.mp hsome
    simp [Buffer.writeable, Buffer.capacity, Buffer.prependable] at h
    simp [Buffer.make_space, Buffer.writeable, Buffer.capacity, Buffer.prependable,
      Buffer.is_dynmic, h] at h1
    subst h1
    simp [Buffer.capacity, Buffer.growth_sum, length_vector_resize]

/-- Where neither the free-space test nor the sum given to `resize` wraps, the
`size_t` member is the exact one. -/
theorem make_space_size_t_eq (T : Nat) (b : Buffer) (n : Nat) (hwf : b.wf T)
    (hfit : b.capacity T < 2 ^ 64)
    (hsum : b.writeable T + b.prependable < n → b.growth_sum n < 2 ^ 64) :
    b.make_space_size_t T n = b.make_space T n := by
  have hw := writeable_size_t_eq T b hwf.2 hfit
  have hfree : size_t_add (b.writeable_size_t T) b.prependable
      = b.writeable T + b.prependable := by
    rw [hw]
    apply size_t_add_eq
    obtain ⟨-, hrw, hcap⟩ := hwf
    simp only [Buffer.writeable, Buffer.prependable]
    omega
  unfold Buffer.make_space_size_t Buffer.make_space
  rw [hfree]
  by_cases hg : b.writeable T + b.prependable < n
  · have hs := hsum hg
    simp only [hg, if_true]
    cases hmode : b.is_dynmic_
    · have hsd := set_dynamic_eq T b hwf hmode
      simp only [Buffer.growth_sum, hmode, Bool.false_eq_true, if_false] at hs
      simp only [Buffer.is_dynmic, hmode, Bool.not_false, if_true, hsd, size_t_add_eq _ _ hs]
    · obtain ⟨v, hv⟩ := Option.isSome_iff_exists.mp (hwf.1.2 hmode)
      simp only [Buffer.growth_sum, hmode, if_true] at hs
      simp only [Buffer.is_dynmic, hmode, Bool.not_true, Bool.false_eq_true, if_false, hv,
        size_t_add_eq _ _ hs]
  · simp only [hg, if_false]

/-- The capacity after `ensure_writable_bytes` is a `size_t` value when the
capacity before is one and the sum given to `resize` does not wrap. -/
theorem ensure_writable_bytes_fits (T : Nat) (b b1 : Buffer) (n : Nat) (hwf : b.wf T)
    (hfit : b.capacity T < 2 ^ 64)
    (hsum : b.writeable T + b.prependable < n → b.growth_sum n < 2 ^ 64)
    (h1 : b.ensure_writable_bytes T n = some b1) : b1.capacity T < 2 ^ 64 := by
  unfold Buffer.ensure_writable_bytes at h1
  by_cases hroom : b.writeable T < n
  · rw [if_pos hroom] at h1
    by_cases hg : b.writeable T + b.prependable < n
    · obtain ⟨b2, h2, -⟩ := make_space_grow T b n hwf hg
      have hcap := make_space_grow_capacity T b b2 n hwf hg h2
      rw [h2] at h1
      by_cases hw : b2.writeable T ≥ n
      · simp only [hw, if_true, Option.some.injEq] at h1
        subst h1
        rw [hcap]; exact hsum hg
      · simp [hw] at h1
    · obtain ⟨b2, h2, -, -, -, hcap, -⟩ := make_space_compact T b n hwf (by omega)
      rw [h2] at h1
      by_cases hw : b2.writeable T ≥ n
      · simp only [hw, if_true, Option.some.injEq] at h1
        subst h1
        rw [hcap]; exact hfit
      · simp [hw] at h1
  · rw [if_neg hroom] at h1
    by_cases hw : b.writeable T ≥ n
    · simp only [hw, if_true, Option.some.injEq] at h1
      subst h1
      exact hfit
    · simp [hw] at h1

/-- Where nothing wraps, `ensure_writable_bytes` in `size_t` is the exact one. -/
theorem ensure_writable_bytes_size_t_eq (T : Nat) (b : Buffer) (n : Nat) (hwf : b.wf T)
    (hfit : b.capacity T < 2 ^ 64)
    (hsum : b.writeable T + b.prependable < n → b.growth_sum n < 2 ^ 64) :
    b.ensure_writable_bytes_size_t T n = b.ensure_writable_bytes T n := by
  obtain ⟨b1, h1, hwf1, -, -, hw1, -⟩ := ensure_writable_bytes_spec T b n hwf
  have hfit1 := ensure_writable_bytes_fits T b b1 n hwf hfit hsum h1
  have hws1 := writeable_size_t_eq T b1 hwf1.2 hfit1
  have hinner : (if b.writeable_size_t T < n then b.make_space_size_t T n else some b)
      = some b1 := by
    rw [writeable_size_t_eq T b hwf.2 hfit, make_space_size_t_eq T b n hwf hfit hsum]
    unfold Buffer.ensure_writable_bytes at h1
    cases hm : (if b.writeable T < n then b.make_space T n else some b) with
    | none => simp [hm] at h1
    | some b2 =>
      simp only [hm] at h1
      by_cases hw : b2.writeable T ≥ n
      · simp only [hw, if_true, Option.some.injEq] at h1
        rw [h1]
      · simp [hw] at h1
  rw [h1]
  unfold Buffer.ensure_writable_bytes_size_t
  have hge : b1.writeable_size_t T ≥ n := by rw [hws1]; exact hw1
  simp only [hinner, hge, if_true]

/-! ## The claims -/

/-- C1: on every state with `reader_pos ≤ writer_pos ≤ capacity`, Inline or
Dynamic, `write(d, n)` returns `n`, and the readable region afterwards holds the
old readable bytes followed by `d`, in order, so `readable()` grows by exactly
`n`; this covers the path with enough room, compaction, promotion and growth. -/
theorem write_appends (T : Nat) (b : Buffer) (d : List Byte)
    (hshape : b.shape T) (hinv : b.cursor_inv T) :
    ∃ b2, b.write T d = some (b2, d.length) ∧
      b2.readable_bytes = b.readable_bytes ++ d ∧
      b2.readable = b.readable + d.length := by
  obtain ⟨b2, h, -, hbytes, hr, -⟩ := write_spec T b d ⟨hshape, hinv⟩
  exact ⟨b2, h, hbytes, hr⟩

/-- C1, at an Inline buffer with `T = 8` whose write of six bytes goes through
compaction. -/
theorem write_appends_witness :
    Buffer.shape 8 ⟨false, 2, 3, [1, 2, 3, 0, 0, 0, 0, 0], none⟩ ∧
    Buffer.cursor_inv 8 ⟨false, 2, 3, [1, 2, 3, 0, 0, 0, 0, 0], none⟩ ∧
    ∃ b2, Buffer.write 8 ⟨false, 2, 3, [1, 2, 3, 0, 0, 0, 0, 0], none⟩ [4, 5, 6, 7, 8, 9]
        = some (b2, [4, 5, 6, 7, 8, 9].length) ∧
      b2.readable_bytes
        = Buffer.readable_bytes ⟨false, 2, 3, [1, 2, 3, 0, 0, 0, 0, 0], none⟩ ++ [4, 5, 6, 7, 8, 9] ∧
      b2.readable
        = Buffer.readable ⟨false, 2, 3, [1, 2, 3, 0, 0, 0, 0, 0], none⟩ + [4, 5, 6, 7, 8, 9].length :=
  ⟨by decide, by decide, write_appends 8 _ _ (by decide) (by decide)⟩

/-- C2: for every string `s` shorter than `2^32`, the empty one included, and
every buffer with `readable() == 0`, `write_lenght_and_string(s)` followed by
`read_lenght_and_string()` (either overload) returns exactly `s` and leaves
`readable() == 0`. -/
theorem length_string_round_trip (T : Nat) (big_endian : Bool) (b : Buffer) (s out_value : List Byte)
    (hshape : b.shape T) (hinv : b.cursor_inv T) (hempty : b.readable = 0)
    (hlen : s.length < 2 ^ 32) :
    ∃ b1 b2, b.write_lenght_and_string T big_endian s = some b1 ∧
      b1.read_lenght_and_string big_endian = some (b2, s) ∧
      b1.read_lenght_and_string_out big_endian out_value = some (b2, s) ∧
      b2.readable = 0 := by
  have hwf : b.wf T := ⟨hshape, hinv⟩
  have hnil : b.readable_bytes = [] :=
    List.length_eq_zero.mp (by rw [length_readable_bytes T b hwf, hempty])
  obtain ⟨b1, h1, hwf1, hb1⟩ := write_lenght_and_string_spec T big_endian b s hwf
  rw [hnil, Nat.mod_eq_of_lt hlen, List.nil_append] at hb1
  obtain ⟨b2, h2, hwf2, hb2, -⟩ :=
    read_lenght_and_string_spec T big_endian b1 s [] hwf1 hlen (by rw [hb1, List.append_nil])
  refine ⟨b1, b2, h1, h2, by rw [read_lenght_and_string_out_eq, h2], ?_⟩
  rw [← length_readable_bytes T b2 hwf2, hb2]; rfl

/-- C2, at the empty Inline buffer with `T = 8` and a string of six bytes, which
promotes the buffer. -/
theorem length_string_round_trip_witness :
    Buffer.shape 8 (Buffer.new [0, 0, 0, 0, 0, 0, 0, 0]) ∧
    Buffer.cursor_inv 8 (Buffer.new [0, 0, 0, 0, 0, 0, 0, 0]) ∧
    (Buffer.new [0, 0, 0, 0, 0, 0, 0, 0]).readable = 0 ∧
    [(1 : Byte), 2, 3, 4, 5, 6].length < 2 ^ 32 ∧
    ∃ b1 b2, (Buffer.new [0, 0, 0, 0, 0, 0, 0, 0]).write_lenght_and_string 8 false
        [1, 2, 3, 4, 5, 6] = some b1 ∧
      b1.read_lenght_and_string false = some (b2, [1, 2, 3, 4, 5, 6]) ∧
      b1.read_lenght_and_string_out false [9] = some (b2, [1, 2, 3, 4, 5, 6]) ∧
      b2.readable = 0 :=
  ⟨by decide, by decide, by decide, by simp,
    length_string_round_trip 8 false _ _ _ (by decide) (by decide) (by decide) (by simp)⟩

/-- C3: for every string `s` without a zero byte and every buffer with
`readable() == 0`, writing the raw bytes of `s` with `write_string`, then a
single zero byte, and then calling `read_string()` (either overload) returns
exactly `s`. -/
theorem terminated_string_round_trip (T : Nat) (b : Buffer) (s out_value : List Byte)
    (hshape : b.shape T) (hinv : b.cursor_inv T) (hempty : b.readable = 0)
    (hs : ∀ c ∈ s, c ≠ 0) :
    ∃ b1 b2 b3, b.write_string T s = some b1 ∧ b1.write T [0] = some (b2, 1) ∧
      b2.read_string = some (b3, s) ∧ b2.read_string_out out_value = some (b3, s) := by
  have hwf : b.wf T := ⟨hshape, hinv⟩
  have hnil : b.readable_bytes = [] :=
    List.length_eq_zero.mp (by rw [length_readable_bytes T b hwf, hempty])
  obtain ⟨b1, h1, hwf1, hb1⟩ := write_string_spec T b s hwf
  obtain ⟨b2, h2, hwf2, hb2, -⟩ := write_spec T b1 [0] hwf1
  rw [hb1, hnil, List.nil_append] at hb2
  obtain ⟨b3, h3, -⟩ := read_string_spec T b2 s [] hwf2 hb2 hs
  exact ⟨b1, b2, b3, h1, h2, h3, by rw [read_string_out_eq, h3]⟩

/-- C3, at the empty Inline buffer with `T = 8` and the string `[1, 2, 3]`. -/
theorem terminated_string_round_trip_witness :
    Buffer.shape 8 (Buffer.new [0, 0, 0, 0, 0, 0, 0, 0]) ∧
    Buffer.cursor_inv 8 (Buffer.new [0, 0, 0, 0, 0, 0, 0, 0]) ∧
    (Buffer.new [0, 0, 0, 0, 0, 0, 0, 0]).readable = 0 ∧
    (∀ c ∈ [(1 : Byte), 2, 3], c ≠ 0) ∧
    ∃ b1 b2 b3, (Buffer.new [0, 0, 0, 0, 0, 0, 0, 0]).write_string 8 [1, 2, 3] = some b1 ∧
      b1.write 8 [0] = some (b2, 1) ∧
      b2.read_string = some (b3, [1, 2, 3]) ∧ b2.read_string_out [9] = some (b3, [1, 2, 3]) :=
  ⟨by decide, by decide, by decide, by simp,
    terminated_string_round_trip 8 _ _ _ (by decide) (by decide) (by decide) (by simp)⟩

/-- C4: starting from two empty buffers, after every call of any finite sequence
of `write`, `retrieve(n)` with `n ≤ readable()`, `reserve`, `clear` and `swap`
with the other buffer, the sequence has returned and both buffers satisfy
`reader_pos ≤ writer_pos ≤ capacity`, the capacity being `T` in Inline mode and
the length of the byte vector in Dynamic mode. -/
theorem cursor_invariant_preserved (T : Nat) (u1 u2 : List Byte) (ops : List (Bool × Op))
    (hu1 : u1.length = T) (hu2 : u2.length = T)
    (hvalid : args_valid T (Buffer.new u1, Buffer.new u2) ops = true) :
    ∃ tr, run_trace T (Buffer.new u1, Buffer.new u2) ops = some tr ∧
      tr.length = ops.length ∧
      ∀ s ∈ tr,
        (s.1.reader_pos_ ≤ s.1.writer_pos_ ∧ s.1.writer_pos_ ≤ s.1.capacity T) ∧
        (s.2.reader_pos_ ≤ s.2.writer_pos_ ∧ s.2.writer_pos_ ≤ s.2.capacity T) := by
  obtain ⟨tr, htr, hlen, hall⟩ :=
    run_trace_spec T ops (Buffer.new u1, Buffer.new u2) (new_wf T u1 hu1) (new_wf T u2 hu2) hvalid
  exact ⟨tr, htr, hlen, fun s hs => ⟨(hall s hs).1.2, (hall s hs).2.2⟩⟩

/-- C4, at `T = 4`: a write that promotes, a swap, a drain, a reserve and a
clear. -/
theorem cursor_invariant_preserved_witness :
    args_valid 4 (Buffer.new [0, 0, 0, 0], Buffer.new [0, 0, 0, 0])
      [(false, Op.write [1, 2, 3, 4, 5]), (false, Op.swap), (true, Op.retrieve 5),
       (false, Op.reserve 9), (true, Op.write [6]), (true, Op.clear)] = true ∧
    ∃ tr, run_trace 4 (Buffer.new [0, 0, 0, 0], Buffer.new [0, 0, 0, 0])
        [(false, Op.write [1, 2, 3, 4, 5]), (false, Op.swap), (true, Op.retrieve 5),
         (false, Op.reserve 9), (true, Op.write [6]), (true, Op.clear)] = some tr ∧
      tr.length = [(false, Op.write [1, 2, 3, 4, 5]), (false, Op.swap), (true, Op.retrieve 5),
         (false, Op.reserve 9), (true, Op.write [6]), (true, Op.clear)].length ∧
      ∀ s ∈ tr,
        (s.1.reader_pos_ ≤ s.1.writer_pos_ ∧ s.1.writer_pos_ ≤ s.1.capacity 4) ∧
        (s.2.reader_pos_ ≤ s.2.writer_pos_ ∧ s.2.writer_pos_ ≤ s.2.capacity 4) :=
  ⟨by decide, cursor_invariant_preserved 4 _ _ _ (by decide) (by decide) (by decide)⟩

/-- C5: a Dynamic buffer stays Dynamic.  Each of `write`, `retrieve` (a full
drain included), `retrieve_all`, `has_written`, `reserve`, `clear`,
`ensure_writable_bytes`, `read_string` and `read_lenght_and_string`, called with
its precondition met, returns a state that is still Dynamic, and so does every
finite sequence of such calls. -/
theorem dynamic_is_permanent (T : Nat) (big_endian : Bool) (b : Buffer)
    (hshape : b.shape T) (hinv : b.cursor_inv T) (hdyn : b.is_dynmic_ = true) :
    (∀ op : MemberOp, op.valid T big_endian b = true →
      ∃ b1, op.apply T big_endian b = some b1 ∧ b1.is_dynmic_ = true) ∧
    (∀ ops : List MemberOp, members_valid T big_endian b ops = true →
      ∃ b1, run_members T big_endian b ops = some b1 ∧ b1.is_dynmic_ = true) := by
  constructor
  · intro op hv
    obtain ⟨b1, h1, -, hmode⟩ := member_spec T big_endian b op ⟨hshape, hinv⟩ hv
    exact ⟨b1, h1, hmode hdyn⟩
  · intro ops hv
    obtain ⟨b1, h1, -, hmode⟩ := run_members_spec T big_endian ops b ⟨hshape, hinv⟩ hdyn hv
    exact ⟨b1, h1, hmode⟩

/-- C5, at a Dynamic buffer with `T = 4` holding `[7, 0, 1, 0, 0, 0, 5]`: a string
read, a drain, a clear and further calls leave it Dynamic. -/
theorem dynamic_is_permanent_witness :
    Buffer.shape 4 ⟨true, 0, 7, [0, 0, 0, 0], some [7, 0, 1, 0, 0, 0, 5]⟩ ∧
    Buffer.cursor_inv 4 ⟨true, 0, 7, [0, 0, 0, 0], some [7, 0, 1, 0, 0, 0, 5]⟩ ∧
    members_valid 4 false ⟨true, 0, 7, [0, 0, 0, 0], some [7, 0, 1, 0, 0, 0, 5]⟩
      [MemberOp.read_string, MemberOp.retrieve 1, MemberOp.read_lenght_and_string,
       MemberOp.clear, MemberOp.write [1, 2], MemberOp.retrieve 2, MemberOp.retrieve_all,
       MemberOp.reserve 1, MemberOp.ensure_writable_bytes 3, MemberOp.has_written 2] = true ∧
    ∃ b1, run_members 4 false ⟨true, 0, 7, [0, 0, 0, 0], some [7, 0, 1, 0, 0, 0, 5]⟩
      [MemberOp.read_string, MemberOp.retrieve 1, MemberOp.read_lenght_and_string,
       MemberOp.clear, MemberOp.write [1, 2], MemberOp.retrieve 2, MemberOp.retrieve_all,
       MemberOp.reserve 1, MemberOp.ensure_writable_bytes 3, MemberOp.has_written 2] = some b1 ∧
      b1.is_dynmic_ = true :=
  ⟨by decide, by decide, by decide,
    (dynamic_is_permanent 4 false _ (by decide) (by decide) rfl).2 _ (by decide)⟩

/-- C6: moving `A` into a distinct `B`, by the move constructor or by move
assignment, gives `B` the former mode, cursors and readable bytes of `A`, and
leaves `A` a valid empty Inline buffer: both cursors zero, `readable() == 0`,
not Dynamic, `writeable()` equal to the whole threshold `T`. -/
theorem move_leaves_empty_source (T : Nat) (uninit : List Byte) (s : Sys) (this rhs : Bool)
    (hu : uninit.length = T) (hne : rhs ≠ this)
    (hthis : (s.get this).shape T) (hrhs : (s.get rhs).shape T) :
    (∃ b a1, Buffer.move_ctor T uninit (s.get rhs) = some (b, a1) ∧
      b.is_dynmic_ = (s.get rhs).is_dynmic_ ∧ b.reader_pos_ = (s.get rhs).reader_pos_ ∧
      b.writer_pos_ = (s.get rhs).writer_pos_ ∧
      b.readable_bytes = (s.get rhs).readable_bytes ∧
      a1.reader_pos_ = 0 ∧ a1.writer_pos_ = 0 ∧ a1.readable = 0 ∧ a1.is_dynmic_ = false ∧
      a1.writeable T = T ∧ a1.shape T ∧ a1.cursor_inv T) ∧
    (∃ s1, Buffer.move_assign T s this rhs = some s1 ∧
      (s1.get this).is_dynmic_ = (s.get rhs).is_dynmic_ ∧
      (s1.get this).reader_pos_ = (s.get rhs).reader_pos_ ∧
      (s1.get this).writer_pos_ = (s.get rhs).writer_pos_ ∧
      (s1.get this).readable_bytes = (s.get rhs).readable_bytes ∧
      (s1.get rhs).reader_pos_ = 0 ∧ (s1.get rhs).writer_pos_ = 0 ∧
      (s1.get rhs).readable = 0 ∧ (s1.get rhs).is_dynmic_ = false ∧
      (s1.get rhs).writeable T = T ∧ (s1.get rhs).shape T ∧ (s1.get rhs).cursor_inv T) := by
  have hempty : ∀ a : Buffer, a.reader_pos_ = 0 → a.writer_pos_ = 0 → a.is_dynmic_ = false →
      a.readable = 0 ∧ a.writeable T = T ∧ a.cursor_inv T := by
    intro a hr hw hd
    simp [Buffer.readable, Buffer.writeable, Buffer.capacity, Buffer.cursor_inv, hr, hw, hd]
  constructor
  · obtain ⟨b, a1, h, hd, hr, hw, hb, -, hr0, hw0, hd0, hs0⟩ :=
      move_ctor_spec T uninit (s.get rhs) hu hrhs
    obtain ⟨e1, e2, e3⟩ := hempty a1 hr0 hw0 hd0
    exact ⟨b, a1, h, hd, hr, hw, hb, hr0, hw0, e1, hd0, e2, hs0, e3⟩
  · obtain ⟨s1, h, hd, hr, hw, hb, -, hr0, hw0, hd0, hs0⟩ :=
      move_assign_spec T s this rhs hne hthis hrhs
    obtain ⟨e1, e2, e3⟩ := hempty (s1.get rhs) hr0 hw0 hd0
    exact ⟨s1, h, hd, hr, hw, hb, hr0, hw0, e1, hd0, e2, hs0, e3⟩

/-- C6, at `T = 4`: a Dynamic source holding `[1, 2, 3, 4, 5]` with the first
byte consumed, moved into an Inline destination. -/
theorem move_leaves_empty_source_witness :
    [(0 : Byte), 0, 0, 0].length = 4 ∧ true ≠ false ∧
    (Sys.get (⟨false, 1, 2, [9, 8, 7, 6], none⟩,
      ⟨true, 1, 5, [0, 0, 0, 0], some [1, 2, 3, 4, 5]⟩) false).shape 4 ∧
    (Sys.get (⟨false, 1, 2, [9, 8, 7, 6], none⟩,
      ⟨true, 1, 5, [0, 0, 0, 0], some [1, 2, 3, 4, 5]⟩) true).shape 4 ∧
    ∃ s1, Buffer.move_assign 4 (⟨false, 1, 2, [9, 8, 7, 6], none⟩,
        ⟨true, 1, 5, [0, 0, 0, 0], some [1, 2, 3, 4, 5]⟩) false true = some s1 ∧
      (s1.get false).is_dynmic_ = true ∧ (s1.get false).readable_bytes = [2, 3, 4, 5] ∧
      (s1.get true).readable = 0 ∧ (s1.get true).is_dynmic_ = false ∧
      (s1.get true).writeable 4 = 4 := by
  refine ⟨by decide, by decide, by decide, by decide, ?_⟩
  obtain ⟨s1, h, hd, -, -, hb, -, -, hr, hd0, hw, -⟩ :=
    (move_leaves_empty_source 4 [0, 0, 0, 0]
      (⟨false, 1, 2, [9, 8, 7, 6], none⟩, ⟨true, 1, 5, [0, 0, 0, 0], some [1, 2, 3, 4, 5]⟩)
      false true (by decide) (by decide) (by decide) (by decide)).2
  exact ⟨s1, h, hd, hb, hr, hd0, hw⟩

/-- C7: copy is deep.  The copy `B` of `A` made by the copy constructor or by copy
assignment has the mode, cursors and readable bytes of `A` and leaves `A`
unchanged; afterwards a `write`, `retrieve` or `clear` on either of the two
leaves the other one unchanged, its readable bytes in particular. -/
theorem copy_is_deep (T : Nat) (uninit : List Byte) (s : Sys) (this rhs : Bool)
    (hu : uninit.length = T) (hne : rhs ≠ this)
    (hthis : (s.get this).shape T) (hrhs : (s.get rhs).shape T) :
    (∃ b, Buffer.copy_ctor T uninit (s.get rhs) = some b ∧
      b.is_dynmic_ = (s.get rhs).is_dynmic_ ∧ b.reader_pos_ = (s.get rhs).reader_pos_ ∧
      b.writer_pos_ = (s.get rhs).writer_pos_ ∧
      b.readable_bytes = (s.get rhs).readable_bytes ∧
      ∀ (a : Bool) (s2 : Sys),
        (∀ d, (Op.write d).step T (s.get rhs, b) a = some s2 →
          (s2.get (!a)).readable_bytes = (Sys.get (s.get rhs, b) (!a)).readable_bytes) ∧
        (∀ n, (Op.retrieve n).step T (s.get rhs, b) a = some s2 →
          (s2.get (!a)).readable_bytes = (Sys.get (s.get rhs, b) (!a)).readable_bytes) ∧
        (Op.clear.step T (s.get rhs, b) a = some s2 →
          (s2.get (!a)).readable_bytes = (Sys.get (s.get rhs, b) (!a)).readable_bytes)) ∧
    (∃ s1, Buffer.copy_assign T s this rhs = some s1 ∧ s1.get rhs = s.get rhs ∧
      (s1.get this).is_dynmic_ = (s.get rhs).is_dynmic_ ∧
      (s1.get this).reader_pos_ = (s.get rhs).reader_pos_ ∧
      (s1.get this).writer_pos_ = (s.get rhs).writer_pos_ ∧
      (s1.get this).readable_bytes = (s.get rhs).readable_bytes ∧
      ∀ (a : Bool) (s2 : Sys),
        (∀ d, (Op.write d).step T s1 a = some s2 →
          (s2.get (!a)).readable_bytes = (s1.get (!a)).readable_bytes) ∧
        (∀ n, (Op.retrieve n).step T s1 a = some s2 →
          (s2.get (!a)).readable_bytes = (s1.get (!a)).readable_bytes) ∧
        (Op.clear.step T s1 a = some s2 →
          (s2.get (!a)).readable_bytes = (s1.get (!a)).readable_bytes)) := by
  have hindep : ∀ (s1 : Sys) (a : Bool) (s2 : Sys),
      (∀ d, (Op.write d).step T s1 a = some s2 →
        (s2.get (!a)).readable_bytes = (s1.get (!a)).readable_bytes) ∧
      (∀ n, (Op.retrieve n).step T s1 a = some s2 →
        (s2.get (!a)).readable_bytes = (s1.get (!a)).readable_bytes) ∧
      (Op.clear.step T s1 a = some s2 →
        (s2.get (!a)).readable_bytes = (s1.get (!a)).readable_bytes) := by
    intro s1 a s2
    refine ⟨fun d h => ?_, fun n h => ?_, fun h => ?_⟩
    · rw [on_other s1 s2 a (fun b => match b.write T d with
        | none => none
        | some (b1, _) => some b1) h]
    · rw [on_other s1 s2 a (fun b => b.retrieve n) h]
    · rw [on_other s1 s2 a Buffer.clear h]
  constructor
  · obtain ⟨b, h, hd, hr, hw, hb, -⟩ := copy_ctor_spec T uninit (s.get rhs) hu hrhs
    exact ⟨b, h, hd, hr, hw, hb, hindep _⟩
  · obtain ⟨s1, h, hsame, hd, hr, hw, hb, -⟩ := copy_assign_spec T s this rhs hne hthis hrhs
    exact ⟨s1, h, hsame, hd, hr, hw, hb, hindep s1⟩

/-- C7, at `T = 4`: a Dynamic source copied over an Inline destination. -/
theorem copy_is_deep_witness :
    [(0 : Byte), 0, 0, 0].length = 4 ∧ true ≠ false ∧
    (Sys.get (⟨false, 1, 2, [9, 8, 7, 6], none⟩,
      ⟨true, 1, 5, [0, 0, 0, 0], some [1, 2, 3, 4, 5]⟩) false).shape 4 ∧
    (Sys.get (⟨false, 1, 2, [9, 8, 7, 6], none⟩,
      ⟨true, 1, 5, [0, 0, 0, 0], some [1, 2, 3, 4, 5]⟩) true).shape 4 ∧
    ∃ s1, Buffer.copy_assign 4 (⟨false, 1, 2, [9, 8, 7, 6], none⟩,
        ⟨true, 1, 5, [0, 0, 0, 0], some [1, 2, 3, 4, 5]⟩) false true = some s1 ∧
      s1.get true = ⟨true, 1, 5, [0, 0, 0, 0], some [1, 2, 3, 4, 5]⟩ ∧
      (s1.get false).is_dynmic_ = true ∧ (s1.get false).readable_bytes = [2, 3, 4, 5] := by
  refine ⟨by decide, by decide, by decide, by decide, ?_⟩
  obtain ⟨s1, h, hsame, hd, -, -, hb, -⟩ :=
    (copy_is_deep 4 [0, 0, 0, 0]
      (⟨false, 1, 2, [9, 8, 7, 6], none⟩, ⟨true, 1, 5, [0, 0, 0, 0], some [1, 2, 3, 4, 5]⟩)
      false true (by decide) (by decide) (by decide) (by decide)).2
  exact ⟨s1, h, hsame, hd, hb⟩

/-- C8: for two distinct buffers, `A.swap(B)` leaves `A` with exactly the former
state of `B` (mode, cursors, both storages, hence readable bytes) and `B` with
exactly that of `A`, so swapping twice restores both; `A.swap(A)` leaves `A`
unchanged. -/
theorem swap_exchanges (s : Sys) (a : Bool) :
    (Buffer.swap s a (!a)).get a = s.get (!a) ∧
    (Buffer.swap s a (!a)).get (!a) = s.get a ∧
    ((Buffer.swap s a (!a)).get a).readable_bytes = (s.get (!a)).readable_bytes ∧
    ((Buffer.swap s a (!a)).get (!a)).readable_bytes = (s.get a).readable_bytes ∧
    Buffer.swap (Buffer.swap s a (!a)) a (!a) = s ∧
    Buffer.swap s a a = s := by
  have h1 : (Buffer.swap s a (!a)).get a = s.get (!a) := by
    rw [swap_eq]; cases a <;> rfl
  have h2 : (Buffer.swap s a (!a)).get (!a) = s.get a := by
    rw [swap_eq]; cases a <;> rfl
  exact ⟨h1, h2, by rw [h1], by rw [h2], by rw [swap_eq, swap_eq], swap_self s a⟩

/-- C9: on a state satisfying the cursor invariant and for `n ≤ readable()`,
`retrieve(n)` resets both cursors to zero when `n == readable()`, and otherwise
advances `reader_pos` by exactly `n` leaving `writer_pos` alone; the mode and
both storages are unchanged, and the readable bytes afterwards are the old
ones without their first `n`. -/
theorem retrieve_advances (T : Nat) (b : Buffer) (n : Nat)
    (hshape : b.shape T) (hinv : b.cursor_inv T) (hn : n ≤ b.readable) :
    ∃ b1, b.retrieve n = some b1 ∧
      (n = b.readable → b1.reader_pos_ = 0 ∧ b1.writer_pos_ = 0) ∧
      (n ≠ b.readable → b1.reader_pos_ = b.reader_pos_ + n ∧ b1.writer_pos_ = b.writer_pos_) ∧
      b1.is_dynmic_ = b.is_dynmic_ ∧ b1.static_data_ = b.static_data_ ∧
      b1.dynamic_data_ = b.dynamic_data_ ∧
      b1.readable_bytes = b.readable_bytes.drop n := by
  obtain ⟨b1, h, -, hb, -, hd, hst, hdd, hfull, hpart⟩ :=
    retrieve_spec T b n ⟨hshape, hinv⟩ hn
  exact ⟨b1, h, hfull, hpart, hd, hst, hdd, hb⟩

/-- C9, at an Inline buffer with `T = 8` holding `[2, 3, 4]`, retrieving two
bytes. -/
theorem retrieve_advances_witness :
    Buffer.shape 8 ⟨false, 1, 4, [1, 2, 3, 4, 0, 0, 0, 0], none⟩ ∧
    Buffer.cursor_inv 8 ⟨false, 1, 4, [1, 2, 3, 4, 0, 0, 0, 0], none⟩ ∧
    2 ≤ Buffer.readable ⟨false, 1, 4, [1, 2, 3, 4, 0, 0, 0, 0], none⟩ ∧
    ∃ b1, Buffer.retrieve ⟨false, 1, 4, [1, 2, 3, 4, 0, 0, 0, 0], none⟩ 2 = some b1 ∧
      b1.reader_pos_ = 3 ∧ b1.writer_pos_ = 4 ∧ b1.readable_bytes = [4] := by
  refine ⟨by decide, by decide, by decide, ?_⟩
  obtain ⟨b1, h, -, hpart, -, -, -, hb⟩ :=
    retrieve_advances 8 ⟨false, 1, 4, [1, 2, 3, 4, 0, 0, 0, 0], none⟩ 2
      (by decide) (by decide) (by decide)
  exact ⟨b1, h, (hpart (by decide)).1, (hpart (by decide)).2, hb⟩

/-- C10: promotion happens exactly when the inline capacity is insufficient.  A
write of `n` bytes to an Inline buffer satisfying the cursor invariant returns,
and the buffer is Dynamic afterwards if and only if `readable() + n > T`; it is
Inline otherwise.  The state after the write has `n` more readable bytes and is
again well formed. -/
theorem promotion_iff (T : Nat) (b : Buffer) (d : List Byte)
    (hshape : b.shape T) (hinv : b.cursor_inv T) (hin : b.is_dynmic_ = false) :
    ∃ b2, b.write T d = some (b2, d.length) ∧
      (b2.is_dynmic_ = true ↔ T < b.readable + d.length) ∧
      (b2.is_dynmic_ = false ↔ b.readable + d.length ≤ T) ∧
      b2.readable = b.readable + d.length ∧ b2.shape T ∧ b2.cursor_inv T := by
  obtain ⟨b2, h, hwf2, -, hr, hmode⟩ := write_spec T b d ⟨hshape, hinv⟩
  have hfree : b.writeable T + b.prependable = T - b.readable := by
    obtain ⟨hrw, hcap⟩ := hinv
    simp only [Buffer.capacity, hin, Bool.false_eq_true, if_false] at hcap
    simp only [Buffer.writeable, Buffer.capacity, hin, Bool.false_eq_true, if_false,
      Buffer.prependable, Buffer.readable]
    omega
  have hle : b.readable ≤ T := by
    obtain ⟨hrw, hcap⟩ := hinv
    simp only [Buffer.capacity, hin, Bool.false_eq_true, if_false] at hcap
    simp only [Buffer.readable]
    omega
  have hiff : b2.is_dynmic_ = true ↔ T < b.readable + d.length := by
    rw [hmode, hin, hfree]
    simp only [Bool.false_or, decide_eq_true_eq]
    omega
  refine ⟨b2, h, hiff, ?_, hr, hwf2.1, hwf2.2⟩
  rw [← Bool.not_eq_true, hiff]
  omega

/-- C10, the scenario with `T = 64`: writing 64 bytes to the empty buffer leaves
it Inline with `readable() == 64`, and writing one more byte promotes it to
Dynamic with `readable() == 65`. -/
theorem promotion_iff_witness :
    (Buffer.new (List.replicate 64 0)).shape 64 ∧
    (Buffer.new (List.replicate 64 0)).cursor_inv 64 ∧
    (Buffer.new (List.replicate 64 0)).is_dynmic_ = false ∧
    ∃ b1 b2, (Buffer.new (List.replicate 64 0)).write 64 (List.replicate 64 7) = some (b1, 64) ∧
      b1.is_dynmic_ = false ∧ b1.readable = 64 ∧
      b1.write 64 [7] = some (b2, 1) ∧ b2.is_dynmic_ = true ∧ b2.readable = 65 := by
  have hs : (Buffer.new (List.replicate 64 0)).shape 64 := by simp [Buffer.shape, Buffer.new]
  have hi : (Buffer.new (List.replicate 64 0)).cursor_inv 64 := by
    simp [Buffer.cursor_inv, Buffer.new]
  refine ⟨hs, hi, rfl, ?_⟩
  obtain ⟨b1, h1, -, hin1, hr1, hs1, hi1⟩ :=
    promotion_iff 64 (Buffer.new (List.replicate 64 0)) (List.replicate 64 7) hs hi rfl
  have hlen : (List.replicate 64 (7 : Byte)).length = 64 := List.length_replicate _ _
  have hr0 : (Buffer.new (List.replicate 64 0)).readable = 0 := rfl
  rw [hlen, hr0] at hin1 hr1
  rw [hlen] at h1
  have hd1 : b1.is_dynmic_ = false := hin1.mpr (by omega)
  obtain ⟨b2, h2, hdyn2, -, hr2, -, -⟩ := promotion_iff 64 b1 [7] hs1 hi1 hd1
  refine ⟨b1, b2, h1, hd1, by omega, h2, hdyn2.mpr ?_, ?_⟩
  · rw [hr1]; simp
  · rw [hr2, hr1]; simp

/-- C11: on a buffer whose readable bytes are `p`, `write_lenght_and_string(s)`
with `s` shorter than `2^32` appends exactly `4 + |s|` bytes, the four bytes of
the length field, which holds `|s|`, followed by the bytes of `s` and nothing
else; `retrieve(|p|)` and then `read_lenght_and_string()` (either overload)
return `s` and leave `readable() == 0`. -/
theorem length_string_appends (T : Nat) (big_endian : Bool) (b : Buffer) (s out_value : List Byte)
    (hshape : b.shape T) (hinv : b.cursor_inv T) (hlen : s.length < 2 ^ 32) :
    ∃ b1 b2 b3, b.write_lenght_and_string T big_endian s = some b1 ∧
      b1.readable_bytes = b.readable_bytes ++ (u32_bytes big_endian s.length ++ s) ∧
      (u32_bytes big_endian s.length).length = 4 ∧
      u32_value big_endian (u32_bytes big_endian s.length) = s.length ∧
      b1.readable = b.readable + (4 + s.length) ∧
      b1.retrieve b.readable_bytes.length = some b2 ∧
      b2.read_lenght_and_string big_endian = some (b3, s) ∧
      b2.read_lenght_and_string_out big_endian out_value = some (b3, s) ∧
      b3.readable = 0 := by
  have hwf : b.wf T := ⟨hshape, hinv⟩
  have hrb := length_readable_bytes T b hwf
  obtain ⟨b1, h1, hwf1, hb1⟩ := write_lenght_and_string_spec T big_endian b s hwf
  rw [Nat.mod_eq_of_lt hlen, List.append_assoc] at hb1
  have hr1 : b1.readable = b.readable + (4 + s.length) := by
    rw [← length_readable_bytes T b1 hwf1, hb1, List.length_append, List.length_append,
      length_u32_bytes, hrb]
  obtain ⟨b2, h2, hwf2, hb2, -⟩ :=
    retrieve_spec T b1 b.readable_bytes.length hwf1 (by rw [hr1, hrb]; omega)
  rw [hb1, List.drop_left] at hb2
  obtain ⟨b3, h3, hwf3, hb3, -⟩ :=
    read_lenght_and_string_spec T big_endian b2 s [] hwf2 hlen (by rw [hb2, List.append_nil])
  refine ⟨b1, b2, b3, h1, hb1, length_u32_bytes _ _, u32_value_bytes _ _ hlen, hr1, h2, h3,
    by rw [read_lenght_and_string_out_eq, h3], ?_⟩
  rw [← length_readable_bytes T b3 hwf3, hb3]; rfl

/-- C11, the scenario: a buffer with `T = 8` holds `"hello"`,
`write_lenght_and_string("world")` appends nine bytes, and after `retrieve(5)`
the read returns `"world"` and leaves nothing readable. -/
theorem length_string_appends_witness :
    Buffer.shape 8 ⟨false, 0, 5, [104, 101, 108, 108, 111, 0, 0, 0], none⟩ ∧
    Buffer.cursor_inv 8 ⟨false, 0, 5, [104, 101, 108, 108, 111, 0, 0, 0], none⟩ ∧
    [(119 : Byte), 111, 114, 108, 100].length < 2 ^ 32 ∧
    ∃ b1 b2 b3,
      Buffer.write_lenght_and_string 8 false
        ⟨false, 0, 5, [104, 101, 108, 108, 111, 0, 0, 0], none⟩ [119, 111, 114, 108, 100]
        = some b1 ∧
      b1.readable = 5 + 9 ∧
      b1.retrieve 5 = some b2 ∧
      b2.read_lenght_and_string false = some (b3, [119, 111, 114, 108, 100]) ∧
      b3.readable = 0 := by
  refine ⟨by decide, by decide, by simp, ?_⟩
  obtain ⟨b1, b2, b3, h1, -, -, -, hr1, h2, h3, -, hr3⟩ :=
    length_string_appends 8 false ⟨false, 0, 5, [104, 101, 108, 108, 111, 0, 0, 0], none⟩
      [119, 111, 114, 108, 100] [] (by decide) (by decide) (by simp)
  exact ⟨b1, b2, b3, h1, hr1, h2, h3, hr3⟩

/-- C12: `reserve(n)` on an Inline buffer with `n ≤ T` changes nothing, neither
mode, cursors nor storage; in every other case, Inline with `n > T` or already
Dynamic, the buffer is Dynamic afterwards; and in every case the readable bytes
after `reserve` are the readable bytes before it. -/
theorem reserve_modes (T : Nat) (b : Buffer) (n : Nat)
    (hshape : b.shape T) (hinv : b.cursor_inv T) :
    ∃ b1, b.reserve T n = some b1 ∧
      (b.is_dynmic_ = false → n ≤ T → b1 = b) ∧
      (b.is_dynmic_ = true ∨ T < n → b1.is_dynmic_ = true) ∧
      b1.readable_bytes = b.readable_bytes := by
  obtain ⟨b1, h, -, hb, -, hnoop, -, hdyn⟩ := reserve_spec T b n ⟨hshape, hinv⟩
  exact ⟨b1, h, hnoop, hdyn, hb⟩

/-- C12, at an Inline buffer with `T = 4` holding `[2, 3]`, reserving nine
bytes. -/
theorem reserve_modes_witness :
    Buffer.shape 4 ⟨false, 1, 3, [1, 2, 3, 4], none⟩ ∧
    Buffer.cursor_inv 4 ⟨false, 1, 3, [1, 2, 3, 4], none⟩ ∧
    ∃ b1, Buffer.reserve 4 ⟨false, 1, 3, [1, 2, 3, 4], none⟩ 9 = some b1 ∧
      b1.is_dynmic_ = true ∧ b1.readable_bytes = [2, 3] := by
  refine ⟨by decide, by decide, ?_⟩
  obtain ⟨b1, h, -, hdyn, hb⟩ :=
    reserve_modes 4 ⟨false, 1, 3, [1, 2, 3, 4], none⟩ 9 (by decide) (by decide)
  exact ⟨b1, h, hdyn (Or.inr (by decide)), hb⟩

/-- C14: `read_string` does not consume the terminator.  When the readable region
begins with a string `s` free of zero bytes followed by a zero byte,
`read_string()` (either overload) returns `s` and retrieves exactly `|s|` bytes:
`reader_pos` advances by `|s|`, `readable()` decreases by `|s|`, and the first
readable byte afterwards is the terminator; for the empty `s` the buffer is left
unchanged. -/
theorem read_string_keeps_terminator (T : Nat) (b : Buffer) (s rest out_value : List Byte)
    (hshape : b.shape T) (hinv : b.cursor_inv T)
    (hbytes : b.readable_bytes = s ++ 0 :: rest) (hs : ∀ c ∈ s, c ≠ 0) :
    ∃ b1, b.read_string = some (b1, s) ∧ b.read_string_out out_value = some (b1, s) ∧
      b1.reader_pos_ = b.reader_pos_ + s.length ∧ b1.writer_pos_ = b.writer_pos_ ∧
      b1.readable + s.length = b.readable ∧
      b1.readable_bytes = 0 :: rest ∧ b1.readable_bytes.head? = some 0 ∧
      (s = [] → b1 = b) := by
  obtain ⟨b1, h, hb, hrd, hwr, hr, hnil⟩ :=
    read_string_cursors T b s rest ⟨hshape, hinv⟩ hbytes hs
  exact ⟨b1, h, by rw [read_string_out_eq, h], hrd, hwr, hr, hb, by rw [hb]; rfl, hnil⟩

/-- C14, at an Inline buffer with `T = 8` holding `[1, 2, 3, 0, 9]`. -/
theorem read_string_keeps_terminator_witness :
    Buffer.shape 8 ⟨false, 1, 6, [7, 1, 2, 3, 0, 9, 0, 0], none⟩ ∧
    Buffer.cursor_inv 8 ⟨false, 1, 6, [7, 1, 2, 3, 0, 9, 0, 0], none⟩ ∧
    Buffer.readable_bytes ⟨false, 1, 6, [7, 1, 2, 3, 0, 9, 0, 0], none⟩
      = [1, 2, 3] ++ 0 :: [9] ∧
    (∀ c ∈ [(1 : Byte), 2, 3], c ≠ 0) ∧
    ∃ b1, Buffer.read_string ⟨false, 1, 6, [7, 1, 2, 3, 0, 9, 0, 0], none⟩
        = some (b1, [1, 2, 3]) ∧
      b1.reader_pos_ = 4 ∧ b1.writer_pos_ = 6 ∧ b1.readable_bytes = [0, 9] := by
  refine ⟨by decide, by decide, by decide, by simp, ?_⟩
  obtain ⟨b1, h, -, hrd, hwr, -, hb, -⟩ :=
    read_string_keeps_terminator 8 ⟨false, 1, 6, [7, 1, 2, 3, 0, 9, 0, 0], none⟩
      [1, 2, 3] [9] [] (by decide) (by decide) (by decide) (by simp)
  exact ⟨b1, h, hrd, hwr, hb⟩

/-- C15: compaction.  On a state satisfying the cursor invariant and for `n` with
`writeable() + prependable() ≥ n`, `make_space(n)` leaves the storage mode and
the capacity unchanged, sets `reader_pos` to zero and `writer_pos` to the old
readable count, and the readable bytes afterwards are those before, in the same
order. -/
theorem make_space_compacts (T : Nat) (b : Buffer) (n : Nat)
    (hshape : b.shape T) (hinv : b.cursor_inv T)
    (hfree : n ≤ b.writeable T + b.prependable) :
    ∃ b1, b.make_space T n = some b1 ∧ b1.is_dynmic_ = b.is_dynmic_ ∧
      b1.capacity T = b.capacity T ∧ b1.reader_pos_ = 0 ∧ b1.writer_pos_ = b.readable ∧
      b1.readable_bytes = b.readable_bytes := by
  obtain ⟨b1, h, -, hmode, hb, hcap, hr, hw⟩ :=
    make_space_compact T b n ⟨hshape, hinv⟩ hfree
  exact ⟨b1, h, hmode, hcap, hr, hw, hb⟩

/-- C15, at a Dynamic buffer with `T = 4` whose readable bytes `[3, 4]` sit at
offset two of a vector of five bytes. -/
theorem make_space_compacts_witness :
    Buffer.shape 4 ⟨true, 2, 4, [0, 0, 0, 0], some [1, 2, 3, 4, 5]⟩ ∧
    Buffer.cursor_inv 4 ⟨true, 2, 4, [0, 0, 0, 0], some [1, 2, 3, 4, 5]⟩ ∧
    3 ≤ Buffer.writeable 4 ⟨true, 2, 4, [0, 0, 0, 0], some [1, 2, 3, 4, 5]⟩
      + Buffer.prependable ⟨true, 2, 4, [0, 0, 0, 0], some [1, 2, 3, 4, 5]⟩ ∧
    ∃ b1, Buffer.make_space 4 ⟨true, 2, 4, [0, 0, 0, 0], some [1, 2, 3, 4, 5]⟩ 3 = some b1 ∧
      b1.is_dynmic_ = true ∧ b1.capacity 4 = 5 ∧ b1.reader_pos_ = 0 ∧ b1.writer_pos_ = 2 ∧
      b1.readable_bytes = [3, 4] := by
  refine ⟨by decide, by decide, by decide, ?_⟩
  obtain ⟨b1, h, hmode, hcap, hr, hw, hb⟩ :=
    make_space_compacts 4 ⟨true, 2, 4, [0, 0, 0, 0], some [1, 2, 3, 4, 5]⟩ 3
      (by decide) (by decide) (by decide)
  exact ⟨b1, h, hmode, hcap, hr, hw, hb⟩

/-- C13, refuted as stated: a full Inline buffer with `T = 4` satisfies the cursor
invariant, `reserve(2)` returns it unchanged, and afterwards `writeable()` is
`0`, not at least `2`, and the capacity `4` is below the current size plus
`2`. -/
theorem reserve_leaves_no_room :
    Buffer.shape 4 ⟨false, 0, 4, [1, 2, 3, 4], none⟩ ∧
    Buffer.cursor_inv 4 ⟨false, 0, 4, [1, 2, 3, 4], none⟩ ∧
    Buffer.reserve 4 ⟨false, 0, 4, [1, 2, 3, 4], none⟩ 2
      = some ⟨false, 0, 4, [1, 2, 3, 4], none⟩ ∧
    Buffer.writeable 4 ⟨false, 0, 4, [1, 2, 3, 4], none⟩ = 0 ∧
    ¬ (2 ≤ Buffer.writeable 4 ⟨false, 0, 4, [1, 2, 3, 4], none⟩) ∧
    ¬ (Buffer.readable ⟨false, 0, 4, [1, 2, 3, 4], none⟩ + 2
        ≤ Buffer.capacity 4 ⟨false, 0, 4, [1, 2, 3, 4], none⟩) := by
  decide

/-- C13, amended: `reserve(n)` returns; on an Inline buffer with `n ≤ T` and on a
buffer that is already Dynamic it leaves the state unchanged, so the capacity
and `writeable()` are what they were before the call; the readable bytes are
preserved in every case, and a following write of `n` bytes returns `n` and
appends them, through `make_space` when there is no room. -/
theorem reserve_keeps_capacity (T : Nat) (b : Buffer) (n : Nat)
    (hshape : b.shape T) (hinv : b.cursor_inv T) :
    ∃ b1, b.reserve T n = some b1 ∧
      (b.is_dynmic_ = true ∨ n ≤ T →
        b1 = b ∧ b1.capacity T = b.capacity T ∧ b1.writeable T = b.writeable T) ∧
      b1.readable_bytes = b.readable_bytes ∧
      ∀ d : List Byte, d.length = n →
        ∃ b2, b1.write T d = some (b2, n) ∧ b2.readable_bytes = b.readable_bytes ++ d := by
  obtain ⟨b1, h, hwf1, hb, -, hnoop, hdyn, -⟩ := reserve_spec T b n ⟨hshape, hinv⟩
  refine ⟨b1, h, ?_, hb, ?_⟩
  · intro hcase
    have heq : b1 = b := by
      cases hmode : b.is_dynmic_
      · rcases hcase with hc | hc
        · rw [hmode] at hc; cases hc
        · exact hnoop hmode hc
      · exact hdyn hmode
    rw [heq]
    exact ⟨rfl, rfl, rfl⟩
  · intro d hd
    obtain ⟨b2, hw, -, hb2, -⟩ := write_spec T b1 d hwf1
    rw [hd] at hw
    exact ⟨b2, hw, by rw [hb2, hb]⟩

/-- C13 as amended, at the full Inline buffer with `T = 4`: `reserve(2)` changes
nothing and the following write of two bytes still appends them. -/
theorem reserve_keeps_capacity_witness :
    Buffer.shape 4 ⟨false, 0, 4, [1, 2, 3, 4], none⟩ ∧
    Buffer.cursor_inv 4 ⟨false, 0, 4, [1, 2, 3, 4], none⟩ ∧
    ∃ b1, Buffer.reserve 4 ⟨false, 0, 4, [1, 2, 3, 4], none⟩ 2 = some b1 ∧
      b1.writeable 4 = 0 ∧
      ∃ b2, b1.write 4 [5, 6] = some (b2, 2) ∧ b2.readable_bytes = [1, 2, 3, 4, 5, 6] := by
  refine ⟨by decide, by decide, ?_⟩
  obtain ⟨b1, h, hsame, -, hwrite⟩ :=
    reserve_keeps_capacity 4 ⟨false, 0, 4, [1, 2, 3, 4], none⟩ 2 (by decide) (by decide)
  obtain ⟨b2, hw, hb2⟩ := hwrite [5, 6] rfl
  exact ⟨b1, h, (hsame (Or.inr (by decide))).2.2, b2, hw, hb2⟩

/-- C17, what the code does: on an Inline buffer satisfying the cursor invariant
with readable count `c`, `set_dynamic()` returns a Dynamic buffer with
`reader_pos == 0`, `writer_pos == c` and the former readable bytes at offsets
`[0, c)`, but the store is those bytes followed by `c` zero bytes: its size is
`2 * c`, not `c`, and `writeable()` is `c`, not `0`. -/
theorem set_dynamic_doubles_store (T : Nat) (b : Buffer)
    (hshape : b.shape T) (hinv : b.cursor_inv T) (hin : b.is_dynmic_ = false) :
    ∃ b1, b.set_dynamic = some b1 ∧ b1.is_dynmic_ = true ∧
      b1.reader_pos_ = 0 ∧ b1.writer_pos_ = b.readable ∧
      b1.readable_bytes = b.readable_bytes ∧
      b1.dynamic_data_ = some (b.readable_bytes ++ List.replicate b.readable 0) ∧
      b1.capacity T = 2 * b.readable ∧ b1.writeable T = b.readable := by
  have hwf : b.wf T := ⟨hshape, hinv⟩
  have hrb := length_readable_bytes T b hwf
  refine ⟨_, set_dynamic_eq T b hwf hin, rfl, rfl, rfl, readable_bytes_front _ _ _ _ hrb, rfl,
    ?_, ?_⟩
  · simp [Buffer.capacity, hrb]; omega
  · simp [Buffer.writeable, Buffer.capacity, hrb]

/-- C17, at the failing input: the Inline buffer with `T = 4` holding `[1, 2]` is
promoted to a store of four bytes `[1, 2, 0, 0]` with `writeable() == 2`. -/
theorem set_dynamic_doubles_store_witness :
    Buffer.shape 4 ⟨false, 1, 3, [9, 1, 2, 0], none⟩ ∧
    Buffer.cursor_inv 4 ⟨false, 1, 3, [9, 1, 2, 0], none⟩ ∧
    Buffer.readable ⟨false, 1, 3, [9, 1, 2, 0], none⟩ = 2 ∧
    ∃ b1, Buffer.set_dynamic ⟨false, 1, 3, [9, 1, 2, 0], none⟩ = some b1 ∧
      b1.dynamic_data_ = some [1, 2, 0, 0] ∧ b1.capacity 4 = 4 ∧ b1.writeable 4 = 2 := by
  refine ⟨by decide, by decide, by decide, ?_⟩
  obtain ⟨b1, h, -, -, -, -, hdd, hcap, hw⟩ :=
    set_dynamic_doubles_store 4 ⟨false, 1, 3, [9, 1, 2, 0], none⟩ (by decide) (by decide) rfl
  exact ⟨b1, h, hdd, hcap, hw⟩

/-- C19: a write in Dynamic mode does not consume writable space.  On a Dynamic
buffer satisfying the cursor invariant with `writeable() ≥ n`, a write of `n`
bytes inserts them into the vector at `writer_pos`: the length of the store
grows by exactly `n` and `writeable()` is the same after the write as before.
An Inline write that fits decreases `writeable()` by `n`. -/
theorem dynamic_write_keeps_writable (T : Nat) (b : Buffer) (d : List Byte)
    (hshape : b.shape T) (hinv : b.cursor_inv T) (hroom : d.length ≤ b.writeable T) :
    ∃ b2, b.write T d = some (b2, d.length) ∧ b2.is_dynmic_ = b.is_dynmic_ ∧
      (b.is_dynmic_ = true →
        (∃ v, b.dynamic_data_ = some v ∧
          b2.dynamic_data_ = some (v.take b.writer_pos_ ++ d ++ v.drop b.writer_pos_)) ∧
        b2.capacity T = b.capacity T + d.length ∧
        b2.writeable T = b.writeable T) ∧
      (b.is_dynmic_ = false →
        b2.capacity T = b.capacity T ∧ b2.writeable T + d.length = b.writeable T) := by
  have hwf : b.wf T := ⟨hshape, hinv⟩
  obtain ⟨b1, h1, -, -, -, -, hsame, -⟩ := ensure_writable_bytes_spec T b d.length hwf
  have hb1 := hsame hroom
  subst hb1
  have hcap := hinv.2
  cases hmode : b1.is_dynmic_
  · have h2 := write_copy_inline T b1 d hwf hmode hroom
    have hw2 : d.length ≤ Buffer.writeable T { b1 with
        static_data_ := (List.take b1.writer_pos_ b1.static_data_ ++ d ++
          List.drop (b1.writer_pos_ + d.length) b1.static_data_) } := by
      simpa [Buffer.writeable, Buffer.capacity, hmode] using hroom
    have hwrite := write_eq_steps T b1 d
    simp only [h1, h2, has_written_eq T _ d.length hw2] at hwrite
    refine ⟨_, hwrite, ?_, ?_, ?_⟩
    · simp [hmode]
    · intro h; cases h
    · intro _
      clear hw2 hwrite h2
      simp [Buffer.writeable, Buffer.capacity, hmode] at hroom hcap ⊢
      omega
  · obtain ⟨v, hv⟩ := Option.isSome_iff_exists.mp (hshape.2 hmode)
    have h2 := write_copy_dynamic T b1 d v hwf hmode hv
    simp only [Buffer.capacity, hmode, if_true, hv, Option.getD_some] at hcap
    have hw2 : d.length ≤ Buffer.writeable T { b1 with
        dynamic_data_ := some (List.take b1.writer_pos_ v ++ d ++ List.drop b1.writer_pos_ v) } := by
      simp [Buffer.writeable, Buffer.capacity, hmode]
      omega
    have hwrite := write_eq_steps T b1 d
    simp only [h1, h2, has_written_eq T _ d.length hw2] at hwrite
    refine ⟨_, hwrite, ?_, ?_, ?_⟩
    · simp [hmode]
    · intro _
      refine ⟨⟨v, hv, rfl⟩, ?_, ?_⟩
      · simp [Buffer.capacity, hmode, hv]
        omega
      · simp [Buffer.writeable, Buffer.capacity, hmode, hv]
        omega
    · intro h; cases h

/-- C19, at a Dynamic buffer with `T = 4` whose vector `[1, 2, 0, 0]` has two
readable and two writable bytes: after writing `[7, 8]` the vector has six
bytes and two are still writable. -/
theorem dynamic_write_keeps_writable_witness :
    Buffer.shape 4 ⟨true, 0, 2, [0, 0, 0, 0], some [1, 2, 0, 0]⟩ ∧
    Buffer.cursor_inv 4 ⟨true, 0, 2, [0, 0, 0, 0], some [1, 2, 0, 0]⟩ ∧
    [(7 : Byte), 8].length ≤ Buffer.writeable 4 ⟨true, 0, 2, [0, 0, 0, 0], some [1, 2, 0, 0]⟩ ∧
    ∃ b2, Buffer.write 4 ⟨true, 0, 2, [0, 0, 0, 0], some [1, 2, 0, 0]⟩ [7, 8] = some (b2, 2) ∧
      b2.capacity 4 = 6 ∧ b2.writeable 4 = 2 := by
  refine ⟨by decide, by decide, by decide, ?_⟩
  obtain ⟨b2, h, -, hdyn, -⟩ :=
    dynamic_write_keeps_writable 4 ⟨true, 0, 2, [0, 0, 0, 0], some [1, 2, 0, 0]⟩ [7, 8]
      (by decide) (by decide) (by decide)
  exact ⟨b2, h, (hdyn rfl).2.1, (hdyn rfl).2.2⟩

/-- C20: assignment adopts the mode of the source.  After the copy assignment
`D = S` or the move assignment `D = move(S)` from a distinct `S`, the mode
flag, the cursors and the readable bytes of `D` are the former ones of `S`,
whatever `D` was before; a destination assigned from an Inline source is Inline
afterwards, also when it was Dynamic. -/
theorem assignment_adopts_mode (T : Nat) (s : Sys) (this rhs : Bool) (hne : rhs ≠ this)
    (hthis : (s.get this).shape T) (hrhs : (s.get rhs).shape T) :
    (∃ s1, Buffer.copy_assign T s this rhs = some s1 ∧
      (s1.get this).is_dynmic_ = (s.get rhs).is_dynmic_ ∧
      (s1.get this).reader_pos_ = (s.get rhs).reader_pos_ ∧
      (s1.get this).writer_pos_ = (s.get rhs).writer_pos_ ∧
      (s1.get this).readable_bytes = (s.get rhs).readable_bytes ∧
      ((s.get rhs).is_dynmic_ = false → (s1.get this).is_dynmic_ = false)) ∧
    (∃ s1, Buffer.move_assign T s this rhs = some s1 ∧
      (s1.get this).is_dynmic_ = (s.get rhs).is_dynmic_ ∧
      (s1.get this).reader_pos_ = (s.get rhs).reader_pos_ ∧
      (s1.get this).writer_pos_ = (s.get rhs).writer_pos_ ∧
      (s1.get this).readable_bytes = (s.get rhs).readable_bytes ∧
      ((s.get rhs).is_dynmic_ = false → (s1.get this).is_dynmic_ = false)) := by
  constructor
  · obtain ⟨s1, h, -, hd, hr, hw, hb, -⟩ := copy_assign_spec T s this rhs hne hthis hrhs
    exact ⟨s1, h, hd, hr, hw, hb, fun hin => by rw [hd, hin]⟩
  · obtain ⟨s1, h, hd, hr, hw, hb, -⟩ := move_assign_spec T s this rhs hne hthis hrhs
    exact ⟨s1, h, hd, hr, hw, hb, fun hin => by rw [hd, hin]⟩

/-- C20, at `T = 4`: a Dynamic destination assigned from an Inline source holding
`[8, 7]` is Inline afterwards, by copy and by move. -/
theorem assignment_adopts_mode_witness :
    false ≠ true ∧
    (Sys.get (⟨false, 1, 3, [9, 8, 7, 6], none⟩,
      ⟨true, 1, 5, [0, 0, 0, 0], some [1, 2, 3, 4, 5]⟩) true).shape 4 ∧
    (Sys.get (⟨false, 1, 3, [9, 8, 7, 6], none⟩,
      ⟨true, 1, 5, [0, 0, 0, 0], some [1, 2, 3, 4, 5]⟩) false).shape 4 ∧
    (∃ s1, Buffer.copy_assign 4 (⟨false, 1, 3, [9, 8, 7, 6], none⟩,
        ⟨true, 1, 5, [0, 0, 0, 0], some [1, 2, 3, 4, 5]⟩) true false = some s1 ∧
      (s1.get true).is_dynmic_ = false ∧ (s1.get true).readable_bytes = [8, 7]) ∧
    (∃ s1, Buffer.move_assign 4 (⟨false, 1, 3, [9, 8, 7, 6], none⟩,
        ⟨true, 1, 5, [0, 0, 0, 0], some [1, 2, 3, 4, 5]⟩) true false = some s1 ∧
      (s1.get true).is_dynmic_ = false ∧ (s1.get true).readable_bytes = [8, 7]) := by
  refine ⟨by decide, by decide, by decide, ?_⟩
  obtain ⟨⟨s1, h1, -, -, -, hb1, hin1⟩, ⟨s2, h2, -, -, -, hb2, hin2⟩⟩ :=
    assignment_adopts_mode 4
      (⟨false, 1, 3, [9, 8, 7, 6], none⟩, ⟨true, 1, 5, [0, 0, 0, 0], some [1, 2, 3, 4, 5]⟩)
      true false (by decide) (by decide) (by decide)
  exact ⟨⟨s1, h1, hin1 rfl, hb1⟩, ⟨s2, h2, hin2 rfl, hb2⟩⟩

/-- C16, refuted as stated: the Inline buffer with `T = 4` holding `[1, 2, 3]`
satisfies the cursor invariant and has `writeable() + prependable() = 1`, less
than `n = 2 ^ 64 - 1`; `make_space(n)` promotes it to `[1, 2, 3, 0, 0, 0]` and
then resizes to the wrapped sum `3 + n = 2`, so the store is `[1, 2]`: the third
readable byte is gone and `writer_pos` lies beyond the store. -/
theorem make_space_wraps :
    Buffer.shape 4 ⟨false, 0, 3, [1, 2, 3, 0], none⟩ ∧
    Buffer.cursor_inv 4 ⟨false, 0, 3, [1, 2, 3, 0], none⟩ ∧
    size_t_add (Buffer.writeable_size_t 4 ⟨false, 0, 3, [1, 2, 3, 0], none⟩)
      (Buffer.prependable ⟨false, 0, 3, [1, 2, 3, 0], none⟩) = 1 ∧
    size_t_add 3 18446744073709551615 = 2 ∧
    Buffer.make_space_size_t 4 ⟨false, 0, 3, [1, 2, 3, 0], none⟩ 18446744073709551615
      = some ⟨true, 0, 3, [1, 2, 3, 0], some [1, 2]⟩ ∧
    Buffer.readable_bytes ⟨false, 0, 3, [1, 2, 3, 0], none⟩ = [1, 2, 3] ∧
    Buffer.readable_bytes ⟨true, 0, 3, [1, 2, 3, 0], some [1, 2]⟩ ≠ [1, 2, 3] ∧
    ¬ Buffer.cursor_inv 4 ⟨true, 0, 3, [1, 2, 3, 0], some [1, 2]⟩ := by
  decide

/-- C16, amended: growth.  On a state satisfying the cursor invariant, Inline or
Dynamic, whose capacity is a `size_t` value, and for `n` with
`writeable() + prependable() < n` such that the sum `writer_pos + n` given to
`resize` does not wrap, `make_space(n)` returns a Dynamic buffer with
`writeable() ≥ n` whose readable bytes are those before the call, and the
cursor invariant holds again. -/
theorem make_space_grows_without_wrap (T : Nat) (b : Buffer) (n : Nat)
    (hshape : b.shape T) (hinv : b.cursor_inv T) (hfit : b.capacity T < 2 ^ 64)
    (hfree : b.writeable T + b.prependable < n) (hsum : b.growth_sum n < 2 ^ 64) :
    ∃ b1, b.make_space_size_t T n = some b1 ∧ b1.is_dynmic_ = true ∧
      n ≤ b1.writeable_size_t T ∧ b1.readable_bytes = b.readable_bytes ∧
      b1.cursor_inv T := by
  have hwf : b.wf T := ⟨hshape, hinv⟩
  obtain ⟨b1, h, hwf1, hdyn, hb, hw, -⟩ := make_space_grow T b n hwf hfree
  have hcap := make_space_grow_capacity T b b1 n hwf hfree h
  have hws := writeable_size_t_eq T b1 hwf1.2 (by rw [hcap]; exact hsum)
  refine ⟨b1, ?_, hdyn, by rw [hws, hw], hb, hwf1.2⟩
  rw [make_space_size_t_eq T b n hwf hfit (fun _ => hsum), h]

/-- C16 as amended, at an Inline buffer with `T = 4` holding `[2, 3, 4]`, asked
for five bytes. -/
theorem make_space_grows_without_wrap_witness :
    Buffer.shape 4 ⟨false, 1, 4, [1, 2, 3, 4], none⟩ ∧
    Buffer.cursor_inv 4 ⟨false, 1, 4, [1, 2, 3, 4], none⟩ ∧
    Buffer.capacity 4 ⟨false, 1, 4, [1, 2, 3, 4], none⟩ < 2 ^ 64 ∧
    Buffer.writeable 4 ⟨false, 1, 4, [1, 2, 3, 4], none⟩
      + Buffer.prependable ⟨false, 1, 4, [1, 2, 3, 4], none⟩ < 5 ∧
    Buffer.growth_sum ⟨false, 1, 4, [1, 2, 3, 4], none⟩ 5 < 2 ^ 64 ∧
    ∃ b1, Buffer.make_space_size_t 4 ⟨false, 1, 4, [1, 2, 3, 4], none⟩ 5 = some b1 ∧
      b1.is_dynmic_ = true ∧ 5 ≤ b1.writeable_size_t 4 ∧ b1.readable_bytes = [2, 3, 4] := by
  refine ⟨by decide, by decide, by decide, by decide, by decide, ?_⟩
  obtain ⟨b1, h, hdyn, hw, hb, -⟩ :=
    make_space_grows_without_wrap 4 ⟨false, 1, 4, [1, 2, 3, 4], none⟩ 5
      (by decide) (by decide) (by decide) (by decide) (by decide)
  exact ⟨b1, h, hdyn, hw, hb⟩

/-- C18, refuted as stated: on the Inline buffer with `T = 4` holding
`[1, 2, 3]`, which satisfies the cursor invariant, `ensure_writable_bytes(n)`
with `n = 2 ^ 64 - 1` returns, its closing assertion passing because
`writeable()` wraps to `2 ^ 64 - 1`, but the store has been cut to `[1, 2]`: the
readable bytes are not unchanged and `writer_pos` lies beyond the store. -/
theorem ensure_writable_bytes_wraps :
    Buffer.shape 4 ⟨false, 0, 3, [1, 2, 3, 0], none⟩ ∧
    Buffer.cursor_inv 4 ⟨false, 0, 3, [1, 2, 3, 0], none⟩ ∧
    Buffer.ensure_writable_bytes_size_t 4 ⟨false, 0, 3, [1, 2, 3, 0], none⟩
        18446744073709551615
      = some ⟨true, 0, 3, [1, 2, 3, 0], some [1, 2]⟩ ∧
    Buffer.writeable_size_t 4 ⟨true, 0, 3, [1, 2, 3, 0], some [1, 2]⟩
      = 18446744073709551615 ∧
    Buffer.readable_bytes ⟨false, 0, 3, [1, 2, 3, 0], none⟩ = [1, 2, 3] ∧
    Buffer.readable_bytes ⟨true, 0, 3, [1, 2, 3, 0], some [1, 2]⟩ ≠ [1, 2, 3] ∧
    ¬ Buffer.cursor_inv 4 ⟨true, 0, 3, [1, 2, 3, 0], some [1, 2]⟩ := by
  decide

/-- C18, amended: the assertions hold where the sum does not wrap.  On a state
satisfying the cursor invariant whose capacity is a `size_t` value, and for
every `n` such that the sum `writer_pos + n` given to `resize`, when growth is
needed, does not wrap, `ensure_writable_bytes(n)` returns with
`writeable() ≥ n`, so its closing assertion passes, keeps the readable bytes
and the cursor invariant, and changes nothing when `writeable() ≥ n` held
already; inside a `write` of `n` bytes the copy step returns, the precondition
`writeable() >= size` of `has_written` holds when it is reached, and the write
returns. -/
theorem ensure_writable_bytes_asserts_without_wrap (T : Nat) (b : Buffer) (n : Nat)
    (hshape : b.shape T) (hinv : b.cursor_inv T) (hfit : b.capacity T < 2 ^ 64)
    (hsum : b.writeable T + b.prependable < n → b.growth_sum n < 2 ^ 64) :
    ∃ b1, b.ensure_writable_bytes_size_t T n = some b1 ∧ n ≤ b1.writeable_size_t T ∧
      b1.readable_bytes = b.readable_bytes ∧ b1.cursor_inv T ∧
      (n ≤ b.writeable_size_t T → b1 = b) ∧
      ∀ d : List Byte, d.length = n →
        ∃ b2 b3, b1.write_copy d = some b2 ∧ n ≤ b2.writeable T ∧
          b2.has_written T n = some b3 ∧ b.write T d = some (b3, n) := by
  have hwf : b.wf T := ⟨hshape, hinv⟩
  obtain ⟨b1, h1, hwf1, hb1, -, hw1, hsame, -⟩ := ensure_writable_bytes_spec T b n hwf
  have hfit1 := ensure_writable_bytes_fits T b b1 n hwf hfit hsum h1
  have hws := writeable_size_t_eq T b hinv hfit
  have hws1 := writeable_size_t_eq T b1 hwf1.2 hfit1
  refine ⟨b1, ?_, by rw [hws1]; exact hw1, hb1, hwf1.2, fun h => hsame (by rw [← hws]; exact h), ?_⟩
  · rw [ensure_writable_bytes_size_t_eq T b n hwf hfit hsum, h1]
  intro d hd
  subst hd
  have hcopy : ∃ b2, b1.write_copy d = some b2 ∧ d.length ≤ b2.writeable T := by
    cases hmode : b1.is_dynmic_
    · refine ⟨_, write_copy_inline T b1 d hwf1 hmode hw1, ?_⟩
      simpa [Buffer.writeable, Buffer.capacity, hmode] using hw1
    · obtain ⟨v, hv⟩ := Option.isSome_iff_exists.mp (hwf1.1.2 hmode)
      refine ⟨_, write_copy_dynamic T b1 d v hwf1 hmode hv, ?_⟩
      have hcap := hwf1.2.2
      simp only [Buffer.capacity, hmode, if_true, hv, Option.getD_some] at hcap
      simp [Buffer.writeable, Buffer.capacity, hmode]
      omega
  obtain ⟨b2, h2, hw2⟩ := hcopy
  refine ⟨b2, _, h2, hw2, has_written_eq T b2 d.length hw2, ?_⟩
  rw [write_eq_steps]
  simp only [h1, h2, has_written_eq T b2 d.length hw2]

/-- C18 as amended, at an Inline buffer with `T = 4` holding `[2, 3, 4]`, asked
for one byte: compaction makes the room. -/
theorem ensure_writable_bytes_asserts_without_wrap_witness :
    Buffer.shape 4 ⟨false, 1, 4, [1, 2, 3, 4], none⟩ ∧
    Buffer.cursor_inv 4 ⟨false, 1, 4, [1, 2, 3, 4], none⟩ ∧
    Buffer.capacity 4 ⟨false, 1, 4, [1, 2, 3, 4], none⟩ < 2 ^ 64 ∧
    (Buffer.writeable 4 ⟨false, 1, 4, [1, 2, 3, 4], none⟩
        + Buffer.prependable ⟨false, 1, 4, [1, 2, 3, 4], none⟩ < 1 →
      Buffer.growth_sum ⟨false, 1, 4, [1, 2, 3, 4], none⟩ 1 < 2 ^ 64) ∧
    ∃ b1, Buffer.ensure_writable_bytes_size_t 4 ⟨false, 1, 4, [1, 2, 3, 4], none⟩ 1 = some b1 ∧
      1 ≤ b1.writeable_size_t 4 ∧ b1.readable_bytes = [2, 3, 4] ∧
      ∃ b3, Buffer.write 4 ⟨false, 1, 4, [1, 2, 3, 4], none⟩ [5] = some (b3, 1) := by
  refine ⟨by decide, by decide, by decide, by decide, ?_⟩
  obtain ⟨b1, h1, hw1, hb1, -, -, hwrite⟩ :=
    ensure_writable_bytes_asserts_without_wrap 4 ⟨false, 1, 4, [1, 2, 3, 4], none⟩ 1
      (by decide) (by decide) (by decide) (by decide)
  obtain ⟨b2, b3, -, -, -, hw⟩ := hwrite [5] rfl
  exact ⟨b1, h1, hw1, hb1, b3, hw⟩

end eddyserver
